import Mathlib

/-!
Verification of the per-channel compositing stage
(src/core/producer/stage.cpp of the casparcg-server fork).

The stage code in src/core/producer/stage.cpp is embedded shallowly:
the executor serializes all commands, so each command is modelled as a
pure state transformer on the stage state (layer table + route table).
Collaborator code that is not part of the repository fragment
(layer.cpp, tweened_transform, the interaction helpers) is modelled
from the specification; each such definition is marked
"Modelled from the spec".
-/

namespace CasparStage

/-- Geometric transform value (position and scale components).
Modelled from the spec: the transform type is external to stage.cpp;
the spec describes it as an affine description with position and
scale, which is what interpolation and inverse projection need. -/
structure frame_transform where
  posX : ℚ
  posY : ℚ
  scaleX : ℚ
  scaleY : ℚ
deriving DecidableEq, Repr

/-- The identity transform: zero offset, unit scale. -/
def frame_transform.id_transform : frame_transform := ⟨0, 0, 1, 1⟩

/-- A tween between two transforms: source, destination, duration in
frames, frames elapsed, and a named easing curve (by index).
Mirrors the tweened_transform value stored per layer. -/
structure tweened_transform where
  source : frame_transform
  dest : frame_transform
  duration : Nat
  time : Nat
  easing : Nat
deriving DecidableEq, Repr

/-- Modelled from the spec: the named easing curves are external; only
the linear curve is specified ("easing(frames_elapsed/duration)" with
linear meaning the ratio itself), so every curve index is modelled as
the linear curve. -/
def ease (_curve : Nat) (t : ℚ) : ℚ := t

/-- Componentwise linear interpolation between two transforms. -/
def lerp (a b : frame_transform) (t : ℚ) : frame_transform :=
  ⟨a.posX + (b.posX - a.posX) * t,
   a.posY + (b.posY - a.posY) * t,
   a.scaleX + (b.scaleX - a.scaleX) * t,
   a.scaleY + (b.scaleY - a.scaleY) * t⟩

/-- Modelled from the spec: fetch yields the source interpolated toward
the destination by easing(frames_elapsed/duration); it does not advance
when called outside the render pass.  A zero-duration tween yields its
destination (the default tween has source = destination = identity). -/
def tweened_transform.fetch (tw : tweened_transform) : frame_transform :=
  if tw.duration = 0 then tw.dest
  else lerp tw.source tw.dest (ease tw.easing ((tw.time : ℚ) / (tw.duration : ℚ)))

/-- Modelled from the spec: the render pass variant of fetch returns
the current interpolated transform and advances frames_elapsed by one,
saturating at the duration. -/
def tweened_transform.tick (tw : tweened_transform) : frame_transform × tweened_transform :=
  (tw.fetch, { tw with time := min (tw.time + 1) tw.duration })

/-- The default tween: identity to identity over zero frames. -/
def tweened_transform.default_tween : tweened_transform :=
  ⟨frame_transform.id_transform, frame_transform.id_transform, 0, 0, 0⟩

/-- Frames are opaque to the stage; a frame is empty, a producer frame
identified by a number, or a frame with a transform applied on top. -/
inductive draw_frame where
  | empty : draw_frame
  | frame : Nat → draw_frame
  | with_transform : frame_transform → draw_frame → draw_frame
deriving DecidableEq, Repr

/-- Modelled from the spec: producers are opaque sources.  The model
keeps exactly the observations stage.cpp makes of a producer: the frame
it yields, whether receiving from it raises, and its collision query. -/
structure frame_producer where
  produced : draw_frame
  fails : Bool
  hit : ℚ → ℚ → Bool

/-- The empty producer: yields the empty frame, never fails, never
reports a collision. -/
def frame_producer.empty_producer : frame_producer :=
  ⟨draw_frame.empty, false, fun _ _ => false⟩

/-- Playback state of a layer. -/
inductive play_state where
  | stopped : play_state
  | playing : play_state
  | paused : play_state
deriving DecidableEq, Repr

/-- Modelled from the spec: a layer holds a foreground producer, an
optional staged background producer, a playback state, an optional
auto-play countdown, and the current tween. -/
structure layer where
  foreground : frame_producer
  background : Option frame_producer
  state : play_state
  auto_play : Option Nat
  tween : tweened_transform

/-- The placeholder layer created implicitly when an absent index is
touched: empty producers, stopped, default tween. -/
def layer.default_layer : layer :=
  ⟨frame_producer.empty_producer, none, play_state.stopped, none,
   tweened_transform.default_tween⟩

/-- Modelled from the spec: play promotes a staged background producer
to the foreground (discarding the prior foreground) and enters the
playing state. -/
def layer.play_now (l : layer) : layer :=
  match l.background with
  | some p => { l with foreground := p, background := none, state := play_state.playing }
  | none => { l with state := play_state.playing }

/-- Modelled from the spec: on each tick the auto-play countdown is
stepped; on reaching zero a play is issued before advancing. -/
def layer.step_auto (l : layer) : layer :=
  match l.auto_play with
  | some 0 => { l.play_now with auto_play := none }
  | some (n + 1) => { l with auto_play := some n }
  | none => l

/-- Modelled from the spec: load stages the producer as background and
records the auto-play countdown; with preview it immediately promotes
the background to foreground and enters the stopped state. -/
def layer.load_cmd (l : layer) (p : frame_producer) (preview : Bool) (auto : Option Nat) : layer :=
  let l1 := { l with background := some p, auto_play := auto }
  if preview then { l1 with foreground := p, background := none, state := play_state.stopped }
  else l1

/-- Whether a background producer is staged. -/
def layer.has_background (l : layer) : Bool := l.background.isSome

/-- Modelled from the spec: a frame drawn from the background producer
(the empty frame when no background is staged). -/
def layer.receive_background (l : layer) : draw_frame :=
  match l.background with
  | some p => p.produced
  | none => draw_frame.empty

/-- Modelled from the spec: receive steps the auto-play countdown, and
when stopped returns a pair of empty frames without touching the
producer; otherwise it yields the foreground frame raw and with the
current tween transform applied, advancing the tween, or raises when
the producer fails.  Returns (raw, transformed, updated layer). -/
def layer.receive (l : layer) : Except Unit (draw_frame × draw_frame × layer) :=
  let l1 := l.step_auto
  match l1.state with
  | play_state.stopped => Except.ok (draw_frame.empty, draw_frame.empty, l1)
  | _ =>
    if l1.foreground.fails then Except.error ()
    else
      let raw := l1.foreground.produced
      let p := l1.tween.tick
      Except.ok (raw, draw_frame.with_transform p.1 raw, { l1 with tween := p.2 })

/-- Route mode of a layer consumer (frame_consumer_mode in the source). -/
inductive frame_consumer_mode where
  | foreground : frame_consumer_mode
  | background : frame_consumer_mode
  | next_producer : frame_consumer_mode
deriving DecidableEq, Repr

/-- A route entry: mode paired with an opaque consumer identity
(write_frame_consumer handles are opaque sinks). -/
structure route_entry where
  mode : frame_consumer_mode
  consumer : Nat
deriving DecidableEq, Repr

/-- Sorted association list keyed by layer index / token, modelling
std::map with its ascending iteration order. -/
abbrev SMap (α : Type) := List (Int × α)

namespace SMap

/-- First value stored at a key. -/
def lookup (k : Int) : SMap α → Option α
  | [] => none
  | kv :: rest => if kv.1 = k then some kv.2 else lookup k rest

/-- Insert-or-replace preserving ascending key order
(std::map assignment). -/
def insert (k : Int) (v : α) : SMap α → SMap α
  | [] => [(k, v)]
  | kv :: rest =>
    if k < kv.1 then (k, v) :: kv :: rest
    else if k = kv.1 then (k, v) :: rest
    else kv :: insert k v rest

/-- Remove a key (std::map erase). -/
def erase (k : Int) : SMap α → SMap α
  | [] => []
  | kv :: rest => if kv.1 = k then rest else kv :: erase k rest

/-- Find-or-default-insert (std::map operator[] and get_layer):
returns the stored or default value together with the updated map. -/
def ensure (k : Int) (d : α) (m : SMap α) : α × SMap α :=
  match lookup k m with
  | some v => (v, m)
  | none => (d, insert k d m)

/-- Insert only if the key is absent (std::map insert, which keeps an
existing mapping). -/
def insert_new (k : Int) (v : α) (m : SMap α) : SMap α :=
  match lookup k m with
  | some _ => m
  | none => insert k v m

/-- The key list in iteration order. -/
def keys (m : SMap α) : List Int := m.map (fun kv => kv.1)

/-- Well-formedness: keys strictly ascending. -/
def wf : SMap α → Bool
  | [] => true
  | [_] => true
  | a :: b :: rest => decide (a.1 < b.1) && wf (b :: rest)

end SMap

/-- The mutable state of one stage: the layer table layers_ and the
route table layer_consumers_ (token to route entry, per index). -/
structure stage_state where
  layers : SMap layer
  routes : SMap (SMap route_entry)

/-- A freshly constructed stage: both tables empty. -/
def stage_init : stage_state := ⟨[], []⟩

/-- get_layer (stage.cpp:65): find the layer at the index, inserting a
default-constructed one when absent (monitor attachment is not
modelled).  Returns the layer and the updated table. -/
def get_layer (i : Int) (s : stage_state) : layer × stage_state :=
  let p := SMap.ensure i layer.default_layer s.layers
  (p.1, { s with layers := p.2 })

/-- stage::impl::load (stage.cpp:226): applies layer.load on the
possibly-created layer. -/
def stage_load (i : Int) (p : frame_producer) (preview : Bool) (auto : Option Nat)
    (s : stage_state) : stage_state :=
  let g := get_layer i s
  { g.2 with layers := SMap.insert i (g.1.load_cmd p preview auto) g.2.layers }

/-- stage::impl::clear(index) (stage.cpp:264): erases the layer; routes
for that index are retained. -/
def stage_clear_one (i : Int) (s : stage_state) : stage_state :=
  { s with layers := SMap.erase i s.layers }

/-- stage::impl::clear() (stage.cpp:270): empties the layer table. -/
def stage_clear_all (s : stage_state) : stage_state :=
  { s with layers := [] }

/-- stage::impl::add_layer_consumer (stage.cpp:381): inserts
(token -> (mode, consumer)) into layer_consumers_[index]; std::map
insert keeps an existing mapping for the token. -/
def stage_add_route (token : Int) (i : Int) (m : frame_consumer_mode) (c : Nat)
    (s : stage_state) : stage_state :=
  let p := SMap.ensure i ([] : SMap route_entry) s.routes
  { s with routes := SMap.insert i (SMap.insert_new token ⟨m, c⟩ p.1) p.2 }

/-- stage::impl::remove_layer_consumer (stage.cpp:390): operator[] on
the index, erase the token, and erase the whole key when the per-layer
map became empty. -/
def stage_remove_route (token : Int) (i : Int) (s : stage_state) : stage_state :=
  let p := SMap.ensure i ([] : SMap route_entry) s.routes
  let inner := SMap.erase token p.1
  if inner.isEmpty then { s with routes := SMap.erase i p.2 }
  else { s with routes := SMap.insert i inner p.2 }

/-- stage::impl::apply_transform (stage.cpp:187): on the
possibly-created layer, fetch the current transform as the new source,
apply the function to that fetched transform to obtain the new
destination, and install a fresh tween with elapsed time zero. -/
def stage_apply_transform (i : Int) (f : frame_transform → frame_transform)
    (mix_duration : Nat) (tw : Nat) (s : stage_state) : stage_state :=
  let g := get_layer i s
  let src := g.1.tween.fetch
  let dst := f src
  { g.2 with layers := SMap.insert i { g.1 with tween := ⟨src, dst, mix_duration, 0, tw⟩ } g.2.layers }

/-- One element of an apply_transforms batch. -/
structure transform_item where
  index : Int
  func : frame_transform → frame_transform
  mix_duration : Nat
  easing : Nat

/-- One iteration of the apply_transforms loop (stage.cpp:176): the new
source is the fetched transform, but the new destination applies the
function to the previous destination of the tween. -/
def batch_transform_step (s : stage_state) (x : transform_item) : stage_state :=
  let g := get_layer x.index s
  let src := g.1.tween.fetch
  let dst := x.func g.1.tween.dest
  { g.2 with layers :=
      SMap.insert x.index { g.1 with tween := ⟨src, dst, x.mix_duration, 0, x.easing⟩ } g.2.layers }

/-- stage::impl::apply_transforms (stage.cpp:171): the whole batch runs
as one executor task, applying the per-element step in order. -/
def stage_apply_transforms (xs : List transform_item) (s : stage_state) : stage_state :=
  xs.foldl batch_transform_step s

/-- stage::impl::clear_transforms(index) (stage.cpp:202). -/
def stage_clear_transforms_one (i : Int) (s : stage_state) : stage_state :=
  let g := get_layer i s
  { g.2 with layers := SMap.insert i { g.1 with tween := tweened_transform.default_tween } g.2.layers }

/-- stage::impl::draw (stage.cpp:145): fetch (creating if absent) the
layer and its consumer map, receive a (raw, transformed) pair from the
layer, fan the raw or background frame out to each route entry, and
yield the transformed frame for the output map.  Returns the updated
state, the list of (consumer, frame) sends, and the output frame. -/
def stage_draw (i : Int) (s : stage_state) :
    Except Unit (stage_state × List (Nat × draw_frame) × draw_frame) :=
  let pl := SMap.ensure i layer.default_layer s.layers
  let pc := SMap.ensure i ([] : SMap route_entry) s.routes
  match pl.1.receive with
  | Except.error e => Except.error e
  | Except.ok r =>
    let raw := r.1
    let l' := r.2.2
    let cons := pc.1
    let sends :=
      if cons.isEmpty then []
      else
        let any_bg := cons.any (fun kv => kv.2.mode != frame_consumer_mode.foreground)
        let frame_bg := if any_bg then l'.receive_background else draw_frame.empty
        let has_bg := if any_bg then l'.has_background else false
        cons.map (fun kv =>
          (kv.2.consumer,
           if kv.2.mode = frame_consumer_mode.background ∨
              (kv.2.mode = frame_consumer_mode.next_producer ∧ has_bg = true)
           then frame_bg else raw))
    Except.ok (⟨SMap.insert i l' pl.2, pc.2⟩, sends, r.2.1)

/-- The sequential linearization of the per-index parallel fan-out
(tbb::parallel_for_each at stage.cpp:122); the indices are disjoint map
keys, so every schedule agrees with this fold, and an escaping
exception is modelled as preempting the remaining writes. -/
def draw_all : List Int → stage_state → SMap draw_frame → List (Nat × draw_frame) →
    Except Unit (stage_state × SMap draw_frame × List (Nat × draw_frame))
  | [], s, f, sends => Except.ok (s, f, sends)
  | i :: rest, s, f, sends =>
    match stage_draw i s with
    | Except.error e => Except.error e
    | Except.ok r => draw_all rest r.1 (SMap.insert i r.2.2 f) (sends ++ r.2.1)

/-- Whether every layer in the table can receive without raising; the
render pass escapes with an exception exactly when this fails. -/
def render_ok (s : stage_state) : Bool :=
  s.layers.all (fun kv => kv.2.receive.isOk)

/-- The layer-table keys in ascending iteration order. -/
def layer_keys (s : stage_state) : List Int := SMap.keys s.layers

/-- The first seeding loop of operator() (stage.cpp:98): ensure a
(possibly empty) consumer map exists for every layer index. -/
def seeded_routes (s : stage_state) : SMap (SMap route_entry) :=
  (layer_keys s).foldl (fun r k => (SMap.ensure k ([] : SMap route_entry) r).2) s.routes

/-- The second seeding loop of operator() (stage.cpp:107): the indices
that carry a non-empty consumer map but no layer. -/
def route_only_keys (s : stage_state) : List Int :=
  ((seeded_routes s).filter
      (fun kv => !kv.2.isEmpty && !(layer_keys s).contains kv.1)).map (fun kv => kv.1)

/-- The active indices of a render pass: layer keys then route-only
keys, in the order operator() pushes them. -/
def active_idxs (s : stage_state) : List Int := layer_keys s ++ route_only_keys s

/-- The pre-seeded output map: every active index mapped to the empty
frame before the parallel fan-out starts. -/
def preseed_frames (s : stage_state) : SMap draw_frame :=
  (active_idxs s).foldl (fun f k => SMap.insert k draw_frame.empty f) ([] : SMap draw_frame)

/-- stage::impl::operator() (stage.cpp:84): pre-seed the output map and
the route table for every layer index, append the route-only indices
whose consumer maps are non-empty, fan out the draws, and on an
escaping exception clear the entire layer table and return the
pre-seeded map (the interaction flush and diagnostics are modelled
separately; they do not touch the tables). -/
def stage_render (s : stage_state) :
    stage_state × SMap draw_frame × List (Nat × draw_frame) :=
  match draw_all (active_idxs s) ⟨s.layers, seeded_routes s⟩ (preseed_frames s) [] with
  | Except.ok r => r
  | Except.error _ => (⟨[], seeded_routes s⟩, preseed_frames s, [])

/-- Modelled from the spec: the interaction helper translate projects a
point through the inverse of a transform (undo offset, then scale). -/
def translate (x y : ℚ) (t : frame_transform) : ℚ × ℚ :=
  ((x - t.posX) / t.scaleX, (y - t.posY) / t.scaleY)

/-- Whether one layer hit-tests positively at (x, y): its current
(non-advancing) transform inverse-projects the point into the unit
square and its producer reports a collision there.  The collides query
is modelled from the spec as the foreground producer's collision. -/
def layer_hit (l : layer) (x y : ℚ) : Bool :=
  let t := l.tween.fetch
  let p := translate x y t
  decide (0 ≤ p.1) && decide (p.1 ≤ 1) && decide (0 ≤ p.2) && decide (p.2 ≤ 1) &&
    l.foreground.hit p.1 p.2

/-- stage::impl::collission_detect (stage.cpp:467): walk the layer
table in reverse (descending index) order and return the transform and
index of the first layer whose hit test succeeds. -/
def collission_detect (x y : ℚ) (s : stage_state) : Option (frame_transform × Int) :=
  (s.layers.reverse.find? (fun kv => layer_hit kv.2 x y)).map
    (fun kv => (kv.2.tween.fetch, kv.1))

/-- Modelled from the spec: the interaction aggregator flushes its
buffered events at the top of a render pass, pairing each event with
the hit-test result (none means the event is dropped). -/
def aggregator_flush (events : List (ℚ × ℚ)) (s : stage_state) :
    List ((ℚ × ℚ) × Option (frame_transform × Int)) :=
  events.map (fun e => (e, collission_detect e.1 e.2 s))

/-- Completion handles: make_ready_future yields a ready handle, while
executor begin_invoke yields a pending one. -/
inductive task_handle where
  | ready : task_handle
  | pending : task_handle
deriving DecidableEq, Repr

/-- stage::impl::swap_layers self-aliased call (stage.cpp:280): when
the other stage is this stage, return a ready future without touching
any state. -/
def stage_swap_layers_self (s : stage_state) (_swap_transforms : Bool) :
    stage_state × task_handle :=
  (s, task_handle.ready)

/-- Ascending insertion into a sorted list of indices (std::set). -/
def sinsert (k : Int) : List Int → List Int
  | [] => [k]
  | x :: xs => if k < x then k :: x :: xs else if k = x then x :: xs else x :: sinsert k xs

/-- The sorted union of two key lists, as built by copying both key
ranges into a std::set (stage.cpp:304). -/
def key_union (xs ys : List Int) : List Int :=
  (xs ++ ys).foldl (fun s k => sinsert k s) []

/-- One index of the tween-swap loop of swap_layers (stage.cpp:309):
get_layer on both stages (creating placeholders when absent) and
exchange only the tweens of the two records. -/
def swap_tween_step (i : Int) (a b : stage_state) : stage_state × stage_state :=
  let ga := get_layer i a
  let gb := get_layer i b
  ({ ga.2 with layers := SMap.insert i ({ ga.1 with tween := gb.1.tween }) ga.2.layers },
   { gb.2 with layers := SMap.insert i ({ gb.1 with tween := ga.1.tween }) gb.2.layers })

/-- The tween-swap loop of swap_layers (stage.cpp:308), iterated over
the sorted union of both key sets. -/
def swap_tweens : List Int → stage_state → stage_state → stage_state × stage_state
  | [], a, b => (a, b)
  | i :: rest, a, b =>
    let p := swap_tween_step i a b
    swap_tweens rest p.1 p.2

/-- stage::impl::swap_layers between two distinct stages
(stage.cpp:276): exchange the layer tables; when swap_transforms is
false, additionally swap the tweens back index by index over the union
of both key sets (monitor reparenting is not modelled). -/
def stage_swap_layers (a b : stage_state) (swap_transforms : Bool) :
    stage_state × stage_state :=
  let a1 := { a with layers := b.layers }
  let b1 := { b with layers := a.layers }
  if swap_transforms then (a1, b1)
  else swap_tweens (key_union (SMap.keys a1.layers) (SMap.keys b1.layers)) a1 b1

/-- stage::impl::swap_layer intra-stage (stage.cpp:321): get both
layers (creating placeholders), exchange the records, and when
swap_transforms is false swap the tweens back.  When both indices
coincide the two references alias and the record swap is a no-op. -/
def stage_swap_layer_intra (i j : Int) (swap_transforms : Bool) (s : stage_state) :
    stage_state :=
  let gi := get_layer i s
  let gj := get_layer j gi.2
  if i = j then gj.2
  else
    let li := gi.1
    let lj := gj.1
    if swap_transforms then
      { gj.2 with layers := SMap.insert j li (SMap.insert i lj gj.2.layers) }
    else
      let li' := { lj with tween := li.tween }
      let lj' := { li with tween := lj.tween }
      { gj.2 with layers := SMap.insert j lj' (SMap.insert i li' gj.2.layers) }

/-- stage::impl::swap_layer cross-stage with a self-referencing other
stage (stage.cpp:343): the call falls through to the intra-stage
swap_layer, whose handle is the executor task's pending future. -/
def stage_swap_layer_cross_self (i j : Int) (swap_transforms : Bool) (s : stage_state) :
    stage_state × task_handle :=
  (stage_swap_layer_intra i j swap_transforms s, task_handle.pending)

/-- The commands of the reachability statement for the render key-set
property: add_route, load, and both clear forms. -/
inductive stage_cmd where
  | load (i : Int) (p : frame_producer) (preview : Bool) (auto : Option Nat) : stage_cmd
  | add_route (token : Int) (i : Int) (m : frame_consumer_mode) (c : Nat) : stage_cmd
  | clear_one (i : Int) : stage_cmd
  | clear_all : stage_cmd

/-- Apply one command to a stage state. -/
def stage_cmd.apply (s : stage_state) : stage_cmd → stage_state
  | stage_cmd.load i p preview auto => stage_load i p preview auto s
  | stage_cmd.add_route token i m c => stage_add_route token i m c s
  | stage_cmd.clear_one i => stage_clear_one i s
  | stage_cmd.clear_all => stage_clear_all s

/-- The stage state after running a command sequence from a fresh
stage on the serializing executor. -/
def run_cmds (cmds : List stage_cmd) : stage_state :=
  cmds.foldl stage_cmd.apply stage_init

/-- The stage paired with its executor queue, for the contrast between
submitted commands and stage::execute. -/
structure stage_exec where
  state : stage_state
  queue : List (stage_state → stage_state)

/-- Submission of a command closure through executor begin_invoke: the
closure is appended to the FIFO and a pending handle returned; the
state is untouched until the worker drains the queue. -/
def stage_submit (task : stage_state → stage_state) (e : stage_exec) :
    stage_exec × task_handle :=
  ({ e with queue := e.queue ++ [task] }, task_handle.pending)

/-- stage::execute (stage.cpp:552): invokes the function directly on
the calling thread and returns make_ready_future, bypassing the
executor queue entirely. -/
def stage_execute (func : stage_state → stage_state) (e : stage_exec) :
    stage_exec × task_handle :=
  ({ e with state := func e.state }, task_handle.ready)

/-- Draining the executor queue applies the submitted closures in FIFO
order. -/
def run_queue (e : stage_exec) : stage_state :=
  e.queue.foldl (fun s t => t s) e.state

/-- The frame a route entry of the given mode receives, in terms of the
layer state after receive and the raw received frame. -/
def route_frame (l' : layer) (raw : draw_frame) : frame_consumer_mode → draw_frame
  | frame_consumer_mode.foreground => raw
  | frame_consumer_mode.background => l'.receive_background
  | frame_consumer_mode.next_producer =>
    if l'.has_background then l'.receive_background else raw

/-- Whether the route table carries a non-empty consumer map at the
index. -/
def route_nonempty_at (s : stage_state) (k : Int) : Bool :=
  match SMap.lookup k s.routes with
  | some m => !m.isEmpty
  | none => false

/-- The route-table invariant of the spec: no key maps to an empty
consumer map. -/
def routes_nonempty (s : stage_state) : Bool :=
  s.routes.all (fun kv => !kv.2.isEmpty)

/-- Well-formedness of a whole stage state: both tables sorted and the
route-table invariant. -/
def stage_inv (s : stage_state) : Bool :=
  SMap.wf s.layers && SMap.wf s.routes && routes_nonempty s

/-- Strictly ascending list of indices. -/
def sortedI : List Int → Bool
  | [] => true
  | [_] => true
  | a :: b :: rest => decide (a < b) && sortedI (b :: rest)

/-- Whether the draw at one index can receive without raising (the
layer there, or the implicitly created default layer). -/
def idx_ok (s : stage_state) (i : Int) : Bool :=
  ((SMap.ensure i layer.default_layer s.layers).1).receive.isOk

/-- A producer that yields frame 7 and never fails. -/
def producer7 : frame_producer := ⟨draw_frame.frame 7, false, fun _ _ => false⟩

/-- A playing layer whose producer raises on receive. -/
def failing_layer : layer :=
  { layer.default_layer with
      foreground := ⟨draw_frame.empty, true, fun _ _ => false⟩,
      state := play_state.playing }

/-- A playing layer over producer7. -/
def playing_layer : layer :=
  { layer.default_layer with foreground := producer7, state := play_state.playing }

/-- A tween halfway from the identity to a unit x-offset over two
frames. -/
def half_tween : tweened_transform :=
  ⟨frame_transform.id_transform, ⟨1, 0, 1, 1⟩, 2, 1, 0⟩

/-- A stage whose only layer sits at index 0 with the half-done tween. -/
def swap_ex_a : stage_state := ⟨[(0, { layer.default_layer with tween := half_tween })], []⟩

/-- An empty stage. -/
def swap_ex_b : stage_state := ⟨[], []⟩

/-- A stage with a playing layer at index 0 (same key set as
swap_ex_a). -/
def swap_w_b : stage_state := ⟨[(0, playing_layer)], []⟩

/-- A stage whose layer 1 raises during receive, with a route-only
index 7. -/
def render_fail_ex : stage_state :=
  ⟨[(1, failing_layer)], [(7, [(0, ⟨frame_consumer_mode.foreground, 3⟩)])]⟩

/-- A stage whose layer 1 renders fine, with a route-only index 7. -/
def render_ok_ex : stage_state :=
  ⟨[(1, playing_layer)], [(7, [(0, ⟨frame_consumer_mode.foreground, 3⟩)])]⟩

/-- A stage with no layers and a single background-mode route at
index 0. -/
def route_ex : stage_state :=
  ⟨[], [(0, [(5, ⟨frame_consumer_mode.background, 9⟩)])]⟩

/-- A stopped layer whose producer reports a collision everywhere. -/
def hit_layer : layer :=
  { layer.default_layer with foreground := ⟨draw_frame.frame 1, false, fun _ _ => true⟩ }

/-- A stage with always-colliding layers at indices 1, 3 and 5. -/
def hit_ex : stage_state :=
  ⟨[(1, hit_layer), (3, hit_layer), (5, hit_layer)], []⟩

namespace SMap

theorem lookup_insert {α : Type} (k j : Int) (v : α) (m : SMap α) :
    lookup j (insert k v m) = if k = j then some v else lookup j m := by
  induction m with
  | nil =>
    simp only [insert, lookup]
  | cons kv rest ih =>
    simp only [insert]
    by_cases h1 : k < kv.1
    · simp only [if_pos h1, lookup]
    · simp only [if_neg h1]
      by_cases h2 : k = kv.1
      · simp only [if_pos h2, lookup]
        by_cases h3 : k = j
        · simp only [if_pos h3]
        · simp only [if_neg h3, if_neg (show ¬ kv.1 = j from h2 ▸ h3)]
      · simp only [if_neg h2, lookup, ih]
        by_cases h3 : kv.1 = j
        · have hkj : ¬ k = j := fun hc => h2 (hc.trans h3.symm)
          simp only [if_pos h3, if_neg hkj]
        · simp only [if_neg h3]

theorem mem_keys_insert {α : Type} (k j : Int) (v : α) (m : SMap α) :
    j ∈ keys (insert k v m) ↔ j = k ∨ j ∈ keys m := by
  induction m with
  | nil => simp [insert, keys]
  | cons kv rest ih =>
    simp only [insert]
    by_cases h1 : k < kv.1
    · simp [if_pos h1, keys]
    · simp only [if_neg h1]
      by_cases h2 : k = kv.1
      · simp only [if_pos h2, keys, List.map_cons, List.mem_cons]
        constructor
        · rintro (h | h)
          · exact Or.inl h
          · exact Or.inr (Or.inr h)
        · rintro (h | h | h)
          · exact Or.inl h
          · exact Or.inl (h.trans h2.symm)
          · exact Or.inr h
      · simp only [if_neg h2, keys, List.map_cons, List.mem_cons] at *
        constructor
        · rintro (h | h)
          · exact Or.inr (Or.inl h)
          · rcases ih.mp h with h' | h'
            · exact Or.inl h'
            · exact Or.inr (Or.inr h')
        · rintro (h | h | h)
          · exact Or.inr (ih.mpr (Or.inl h))
          · exact Or.inl h
          · exact Or.inr (ih.mpr (Or.inr h))

theorem insert_ne_nil {α : Type} (k : Int) (v : α) (m : SMap α) :
    insert k v m ≠ [] := by
  cases m with
  | nil => simp [insert]
  | cons kv rest =>
    simp only [insert]
    by_cases h1 : k < kv.1
    · simp [if_pos h1]
    · simp only [if_neg h1]
      by_cases h2 : k = kv.1 <;> simp [h2]

theorem mem_of_insert {α : Type} {k : Int} {v : α} {m : SMap α} {kv : Int × α} :
    kv ∈ insert k v m → kv = (k, v) ∨ kv ∈ m := by
  induction m with
  | nil => simp [insert]
  | cons hd rest ih =>
    simp only [insert]
    by_cases h1 : k < hd.1
    · rw [if_pos h1]
      intro h
      rcases List.mem_cons.mp h with h | h
      · exact Or.inl h
      · exact Or.inr h
    · rw [if_neg h1]
      by_cases h2 : k = hd.1
      · rw [if_pos h2]
        intro h
        rcases List.mem_cons.mp h with h | h
        · exact Or.inl h
        · exact Or.inr (List.mem_cons_of_mem hd h)
      · rw [if_neg h2]
        intro h
        rcases List.mem_cons.mp h with h | h
        · exact Or.inr (h ▸ List.mem_cons_self hd rest)
        · rcases ih h with h' | h'
          · exact Or.inl h'
          · exact Or.inr (List.mem_cons_of_mem hd h')

theorem mem_keys_iff_lookup {α : Type} (j : Int) (m : SMap α) :
    j ∈ keys m ↔ (lookup j m).isSome := by
  induction m with
  | nil => simp [keys, lookup]
  | cons kv rest ih =>
    simp only [keys, List.map_cons, List.mem_cons, lookup]
    by_cases h : kv.1 = j
    · simp [h]
    · have hne : j ≠ kv.1 := fun hc => h hc.symm
      rw [if_neg h]
      constructor
      · rintro (hc | hc)
        · exact absurd hc hne
        · exact ih.mp hc
      · intro hc
        exact Or.inr (ih.mpr hc)

theorem mem_of_lookup_eq_some {α : Type} {j : Int} {v : α} {m : SMap α} :
    lookup j m = some v → (j, v) ∈ m := by
  induction m with
  | nil => simp [lookup]
  | cons kv rest ih =>
    simp only [lookup]
    by_cases h : kv.1 = j
    · intro hv
      rw [if_pos h] at hv
      have : kv = (j, v) := by
        cases kv
        simp only [Option.some.injEq] at hv
        simp_all
      exact this ▸ List.mem_cons_self kv rest
    · intro hv
      rw [if_neg h] at hv
      exact List.mem_cons_of_mem kv (ih hv)

theorem wf_tail {α : Type} {kv : Int × α} {m : SMap α} (h : wf (kv :: m) = true) :
    wf m = true := by
  cases m with
  | nil => simp [wf]
  | cons kv2 rest =>
    simp only [wf, Bool.and_eq_true] at h
    exact h.2

theorem wf_head_lt {α : Type} {kv : Int × α} {m : SMap α} (h : wf (kv :: m) = true) :
    ∀ j ∈ keys m, kv.1 < j := by
  induction m generalizing kv with
  | nil => simp [keys]
  | cons kv2 rest ih =>
    simp only [wf, Bool.and_eq_true, decide_eq_true_eq] at h
    intro j hj
    simp only [keys, List.map_cons, List.mem_cons] at hj
    rcases hj with hj | hj
    · exact hj ▸ h.1
    · exact lt_trans h.1 (ih h.2 j hj)

theorem wf_cons_of {α : Type} {kv : Int × α} {m : SMap α}
    (hlt : ∀ j ∈ keys m, kv.1 < j) (hm : wf m = true) : wf (kv :: m) = true := by
  cases m with
  | nil => simp [wf]
  | cons kv2 rest =>
    simp only [wf, Bool.and_eq_true, decide_eq_true_eq]
    exact ⟨hlt kv2.1 (by simp [keys]), hm⟩

theorem wf_insert {α : Type} (k : Int) (v : α) {m : SMap α} (h : wf m = true) :
    wf (insert k v m) = true := by
  induction m with
  | nil => simp [insert, wf]
  | cons kv rest ih =>
    simp only [insert]
    by_cases h1 : k < kv.1
    · simp only [if_pos h1]
      refine wf_cons_of ?_ h
      intro j hj
      simp only [keys, List.map_cons, List.mem_cons] at hj
      rcases hj with hj | hj
      · exact hj ▸ h1
      · exact lt_trans h1 (wf_head_lt h j hj)
    · simp only [if_neg h1]
      by_cases h2 : k = kv.1
      · simp only [if_pos h2]
        refine wf_cons_of ?_ (wf_tail h)
        intro j hj
        exact h2 ▸ wf_head_lt h j hj
      · simp only [if_neg h2]
        refine wf_cons_of ?_ (ih (wf_tail h))
        intro j hj
        rcases (mem_keys_insert k j v rest).mp hj with hj' | hj'
        · have : kv.1 < k := by
            rcases lt_trichotomy k kv.1 with hc | hc | hc
            · exact absurd hc h1
            · exact absurd hc h2
            · exact hc
          exact hj' ▸ this
        · exact wf_head_lt h j hj'

theorem mem_keys_erase {α : Type} {k j : Int} {m : SMap α} :
    j ∈ keys (erase k m) → j ∈ keys m := by
  induction m with
  | nil => simp [erase]
  | cons kv rest ih =>
    simp only [erase]
    by_cases h : kv.1 = k
    · simp only [if_pos h, keys, List.map_cons, List.mem_cons]
      intro hj
      exact Or.inr hj
    · simp only [if_neg h, keys, List.map_cons, List.mem_cons]
      rintro (hj | hj)
      · exact Or.inl hj
      · exact Or.inr (ih hj)

theorem wf_erase {α : Type} (k : Int) {m : SMap α} (h : wf m = true) :
    wf (erase k m) = true := by
  induction m with
  | nil => simp [erase, wf]
  | cons kv rest ih =>
    simp only [erase]
    by_cases h1 : kv.1 = k
    · simp only [if_pos h1]
      exact wf_tail h
    · simp only [if_neg h1]
      refine wf_cons_of ?_ (ih (wf_tail h))
      intro j hj
      exact wf_head_lt h j (mem_keys_erase hj)

theorem lookup_erase {α : Type} (k j : Int) {m : SMap α} (h : wf m = true) :
    lookup j (erase k m) = if k = j then none else lookup j m := by
  induction m with
  | nil => simp [erase, lookup]
  | cons kv rest ih =>
    simp only [erase]
    by_cases h1 : kv.1 = k
    · simp only [if_pos h1, lookup]
      by_cases h2 : k = j
      · have : ∀ a ∈ keys rest, kv.1 < a := wf_head_lt h
        have hnone : lookup j rest = none := by
          cases hl : lookup j rest with
          | none => rfl
          | some v =>
            have hje : j ∈ keys rest := (mem_keys_iff_lookup j rest).mpr (by simp [hl])
            have := this j hje
            omega
        simp [h2, hnone]
      · have : kv.1 ≠ j := fun hc => h2 ((h1.symm.trans hc))
        simp [h2, this]
    · simp only [if_neg h1, lookup]
      by_cases h3 : kv.1 = j
      · have : k ≠ j := fun hc => h1 (h3.symm ▸ hc.symm ▸ rfl)
        simp [h3, this]
      · simp [h3, ih (wf_tail h)]

theorem lookup_of_mem_wf {α : Type} {m : SMap α} {kv : Int × α}
    (h : wf m = true) (hm : kv ∈ m) : lookup kv.1 m = some kv.2 := by
  induction m with
  | nil => simp at hm
  | cons hd rest ih =>
    rcases List.mem_cons.mp hm with hm' | hm'
    · simp [hm', lookup]
    · have hlt : hd.1 < kv.1 := wf_head_lt h kv.1 (by
        simp only [keys, List.mem_map]
        exact ⟨kv, hm', rfl⟩)
      simp only [lookup, if_neg (by omega : ¬ hd.1 = kv.1)]
      exact ih (wf_tail h) hm'

theorem ext {α : Type} {a b : SMap α} (ha : wf a = true) (hb : wf b = true)
    (h : ∀ k, lookup k a = lookup k b) : a = b := by
  induction a generalizing b with
  | nil =>
    cases b with
    | nil => rfl
    | cons kv rest =>
      have := h kv.1
      simp [lookup] at this
  | cons kv rest ih =>
    cases b with
    | nil =>
      have := h kv.1
      simp [lookup] at this
    | cons kv2 rest2 =>
      have hkey : kv.1 = kv2.1 := by
        rcases lt_trichotomy kv.1 kv2.1 with hc | hc | hc
        · exfalso
          have h1 := h kv.1
          simp only [lookup, if_pos rfl] at h1
          rw [if_neg (by omega : ¬ kv2.1 = kv.1)] at h1
          have : kv.1 ∈ keys rest2 := (mem_keys_iff_lookup kv.1 rest2).mpr (by simp [← h1])
          have := wf_head_lt hb kv.1 this
          omega
        · exact hc
        · exfalso
          have h1 := h kv2.1
          simp only [lookup, if_pos rfl] at h1
          rw [if_neg (by omega : ¬ kv.1 = kv2.1)] at h1
          have : kv2.1 ∈ keys rest := (mem_keys_iff_lookup kv2.1 rest).mpr (by simp [h1])
          have := wf_head_lt ha kv2.1 this
          omega
      have hval : kv.2 = kv2.2 := by
        have h1 := h kv.1
        simp only [lookup, if_pos rfl, hkey, if_pos rfl] at h1
        exact Option.some.inj h1
      have htail : rest = rest2 := by
        refine ih (wf_tail ha) (wf_tail hb) ?_
        intro k
        by_cases hk : k = kv.1
        · have hn1 : lookup k rest = none := by
            cases hl : lookup k rest with
            | none => rfl
            | some v =>
              have := wf_head_lt ha k ((mem_keys_iff_lookup k rest).mpr (by simp [hl]))
              omega
          have hn2 : lookup k rest2 = none := by
            cases hl : lookup k rest2 with
            | none => rfl
            | some v =>
              have := wf_head_lt hb k ((mem_keys_iff_lookup k rest2).mpr (by simp [hl]))
              omega
          rw [hn1, hn2]
        · have h1 := h k
          simp only [lookup] at h1
          rw [if_neg (fun hc => hk hc.symm),
            if_neg (fun hc => hk (hc.symm.trans hkey.symm))] at h1
          exact h1
      cases kv
      cases kv2
      simp_all

theorem ensure_fst {α : Type} (k : Int) (d : α) (m : SMap α) :
    (ensure k d m).1 = (lookup k m).getD d := by
  unfold ensure
  cases lookup k m <;> simp

theorem lookup_ensure {α : Type} (k j : Int) (d : α) (m : SMap α) :
    lookup j (ensure k d m).2 =
      if k = j then some ((lookup k m).getD d) else lookup j m := by
  unfold ensure
  cases h : lookup k m with
  | none =>
    simp only [lookup_insert]
    by_cases hj : k = j
    · simp only [if_pos hj, Option.getD_none]
    · simp [hj]
  | some v =>
    by_cases hj : k = j
    · simp only [if_pos hj, Option.getD_some]
      rw [← hj, h]
    · simp [hj]

theorem wf_ensure {α : Type} (k : Int) (d : α) {m : SMap α} (h : wf m = true) :
    wf (ensure k d m).2 = true := by
  unfold ensure
  cases lookup k m with
  | none => exact wf_insert k d h
  | some v => exact h

theorem mem_keys_ensure {α : Type} (k j : Int) (d : α) (m : SMap α) :
    j ∈ keys (ensure k d m).2 ↔ j = k ∨ j ∈ keys m := by
  rw [mem_keys_iff_lookup, lookup_ensure, mem_keys_iff_lookup]
  by_cases hj : k = j
  · simp [hj]
  · rw [if_neg hj]
    constructor
    · intro h
      exact Or.inr h
    · rintro (h | h)
      · exact absurd h.symm hj
      · exact h

end SMap

theorem sortedI_tail {a : Int} {l : List Int} (h : sortedI (a :: l) = true) :
    sortedI l = true := by
  cases l with
  | nil => simp [sortedI]
  | cons b rest =>
    simp only [sortedI, Bool.and_eq_true] at h
    exact h.2

theorem sortedI_head_lt {a : Int} {l : List Int} (h : sortedI (a :: l) = true) :
    ∀ j ∈ l, a < j := by
  induction l generalizing a with
  | nil => simp
  | cons b rest ih =>
    simp only [sortedI, Bool.and_eq_true, decide_eq_true_eq] at h
    intro j hj
    rcases List.mem_cons.mp hj with hj | hj
    · exact hj ▸ h.1
    · exact lt_trans h.1 (ih h.2 j hj)

theorem sortedI_cons_of {a : Int} {l : List Int}
    (hlt : ∀ j ∈ l, a < j) (hl : sortedI l = true) : sortedI (a :: l) = true := by
  cases l with
  | nil => simp [sortedI]
  | cons b rest =>
    simp only [sortedI, Bool.and_eq_true, decide_eq_true_eq]
    exact ⟨hlt b (List.mem_cons_self b rest), hl⟩

theorem mem_sinsert (k j : Int) (l : List Int) :
    j ∈ sinsert k l ↔ j = k ∨ j ∈ l := by
  induction l with
  | nil => simp [sinsert]
  | cons a rest ih =>
    simp only [sinsert]
    by_cases h1 : k < a
    · simp only [if_pos h1, List.mem_cons]
    · simp only [if_neg h1]
      by_cases h2 : k = a
      · rw [if_pos h2]
        subst h2
        simp only [List.mem_cons]
        tauto
      · simp only [if_neg h2, List.mem_cons, ih]
        tauto

theorem sortedI_sinsert (k : Int) {l : List Int} (h : sortedI l = true) :
    sortedI (sinsert k l) = true := by
  induction l with
  | nil => simp [sinsert, sortedI]
  | cons a rest ih =>
    simp only [sinsert]
    by_cases h1 : k < a
    · simp only [if_pos h1]
      refine sortedI_cons_of ?_ h
      intro j hj
      rcases List.mem_cons.mp hj with hj | hj
      · exact hj ▸ h1
      · exact lt_trans h1 (sortedI_head_lt h j hj)
    · simp only [if_neg h1]
      by_cases h2 : k = a
      · simp [if_pos h2, h]
      · simp only [if_neg h2]
        refine sortedI_cons_of ?_ (ih (sortedI_tail h))
        intro j hj
        rcases (mem_sinsert k j rest).mp hj with hj | hj
        · have : a < k := by
            rcases lt_trichotomy k a with hc | hc | hc
            · exact absurd hc h1
            · exact absurd hc h2
            · exact hc
          exact hj ▸ this
        · exact sortedI_head_lt h j hj

theorem sortedI_foldl_sinsert (l : List Int) {acc : List Int}
    (h : sortedI acc = true) :
    sortedI (l.foldl (fun s k => sinsert k s) acc) = true := by
  induction l generalizing acc with
  | nil => exact h
  | cons a rest ih => exact ih (sortedI_sinsert a h)

theorem mem_foldl_sinsert (l : List Int) (acc : List Int) (j : Int) :
    j ∈ l.foldl (fun s k => sinsert k s) acc ↔ j ∈ acc ∨ j ∈ l := by
  induction l generalizing acc with
  | nil => simp
  | cons a rest ih =>
    simp only [List.foldl_cons, ih, mem_sinsert, List.mem_cons]
    tauto

theorem sortedI_key_union (xs ys : List Int) :
    sortedI (key_union xs ys) = true :=
  sortedI_foldl_sinsert (xs ++ ys) (by simp [sortedI])

theorem mem_key_union (xs ys : List Int) (j : Int) :
    j ∈ key_union xs ys ↔ j ∈ xs ∨ j ∈ ys := by
  unfold key_union
  rw [mem_foldl_sinsert]
  simp

theorem get_layer_fst (i : Int) (s : stage_state) :
    (get_layer i s).1 = (SMap.lookup i s.layers).getD layer.default_layer := by
  unfold get_layer
  exact SMap.ensure_fst i layer.default_layer s.layers

theorem get_layer_lookup (i j : Int) (s : stage_state) :
    SMap.lookup j (get_layer i s).2.layers =
      if i = j then some ((SMap.lookup i s.layers).getD layer.default_layer)
      else SMap.lookup j s.layers := by
  unfold get_layer
  exact SMap.lookup_ensure i j layer.default_layer s.layers

theorem get_layer_routes (i : Int) (s : stage_state) :
    (get_layer i s).2.routes = s.routes := rfl

theorem get_layer_wf (i : Int) {s : stage_state} (h : SMap.wf s.layers = true) :
    SMap.wf (get_layer i s).2.layers = true := by
  unfold get_layer
  exact SMap.wf_ensure i layer.default_layer h

/-- Structure eta for layers: rebuilding the tween with its own value
is the identity. -/
theorem layer_eta (l : layer) : ({ l with tween := l.tween } : layer) = l := by
  cases l
  rfl

theorem swap_tween_step_lookup_fst (i j : Int) (a b : stage_state) :
    SMap.lookup j (swap_tween_step i a b).1.layers =
      if i = j then
        some ({ (SMap.lookup i a.layers).getD layer.default_layer with
                tween := ((SMap.lookup i b.layers).getD layer.default_layer).tween })
      else SMap.lookup j a.layers := by
  simp only [swap_tween_step, get_layer, SMap.ensure_fst, SMap.lookup_insert,
    SMap.lookup_ensure]
  by_cases h : i = j
  · simp [h]
  · simp [h]

theorem swap_tween_step_lookup_snd (i j : Int) (a b : stage_state) :
    SMap.lookup j (swap_tween_step i a b).2.layers =
      if i = j then
        some ({ (SMap.lookup i b.layers).getD layer.default_layer with
                tween := ((SMap.lookup i a.layers).getD layer.default_layer).tween })
      else SMap.lookup j b.layers := by
  simp only [swap_tween_step, get_layer, SMap.ensure_fst, SMap.lookup_insert,
    SMap.lookup_ensure]
  by_cases h : i = j
  · simp [h]
  · simp [h]

theorem swap_tween_step_routes (i : Int) (a b : stage_state) :
    (swap_tween_step i a b).1.routes = a.routes ∧
      (swap_tween_step i a b).2.routes = b.routes := by
  simp [swap_tween_step, get_layer]

theorem swap_tween_step_wf (i : Int) {a b : stage_state}
    (ha : SMap.wf a.layers = true) (hb : SMap.wf b.layers = true) :
    SMap.wf (swap_tween_step i a b).1.layers = true ∧
      SMap.wf (swap_tween_step i a b).2.layers = true := by
  unfold swap_tween_step
  constructor
  · exact SMap.wf_insert i _ (get_layer_wf i ha)
  · exact SMap.wf_insert i _ (get_layer_wf i hb)

theorem swap_tweens_routes (ids : List Int) (a b : stage_state) :
    (swap_tweens ids a b).1.routes = a.routes ∧
      (swap_tweens ids a b).2.routes = b.routes := by
  induction ids generalizing a b with
  | nil => exact ⟨rfl, rfl⟩
  | cons i rest ih =>
    simp only [swap_tweens]
    rcases ih (swap_tween_step i a b).1 (swap_tween_step i a b).2 with ⟨h1, h2⟩
    rcases swap_tween_step_routes i a b with ⟨h3, h4⟩
    exact ⟨h1.trans h3, h2.trans h4⟩

theorem swap_tweens_wf (ids : List Int) {a b : stage_state}
    (ha : SMap.wf a.layers = true) (hb : SMap.wf b.layers = true) :
    SMap.wf (swap_tweens ids a b).1.layers = true ∧
      SMap.wf (swap_tweens ids a b).2.layers = true := by
  induction ids generalizing a b with
  | nil => exact ⟨ha, hb⟩
  | cons i rest ih =>
    simp only [swap_tweens]
    rcases swap_tween_step_wf i ha hb with ⟨h1, h2⟩
    exact ih h1 h2

theorem swap_tweens_lookup (ids : List Int) (a b : stage_state)
    (hs : sortedI ids = true) (k : Int) :
    (SMap.lookup k (swap_tweens ids a b).1.layers =
      if k ∈ ids then
        some ({ (SMap.lookup k a.layers).getD layer.default_layer with
                tween := ((SMap.lookup k b.layers).getD layer.default_layer).tween })
      else SMap.lookup k a.layers) ∧
    (SMap.lookup k (swap_tweens ids a b).2.layers =
      if k ∈ ids then
        some ({ (SMap.lookup k b.layers).getD layer.default_layer with
                tween := ((SMap.lookup k a.layers).getD layer.default_layer).tween })
      else SMap.lookup k b.layers) := by
  induction ids generalizing a b with
  | nil => simp [swap_tweens]
  | cons i rest ih =>
    have hrest : sortedI rest = true := sortedI_tail hs
    have hnm : i ∉ rest := fun hmem => absurd (sortedI_head_lt hs i hmem) (lt_irrefl i)
    simp only [swap_tweens]
    rcases ih (swap_tween_step i a b).1 (swap_tween_step i a b).2 hrest with ⟨h1, h2⟩
    by_cases hk : k = i
    · subst hk
      rw [h1, h2]
      simp only [if_neg hnm, swap_tween_step_lookup_fst, swap_tween_step_lookup_snd,
        if_pos rfl, if_pos (List.mem_cons_self k rest)]
      exact ⟨rfl, rfl⟩
    · have hik : ¬ i = k := fun hc => hk hc.symm
      have hmem : (k ∈ i :: rest) ↔ (k ∈ rest) := by
        simp [List.mem_cons, hk]
      rw [h1, h2]
      simp only [swap_tween_step_lookup_fst, swap_tween_step_lookup_snd, if_neg hik]
      by_cases hkr : k ∈ rest
      · simp only [if_pos hkr, if_pos (hmem.mpr hkr)]
        exact ⟨trivial, trivial⟩
      · simp only [if_neg hkr, if_neg (fun hc => hkr (hmem.mp hc))]
        exact ⟨trivial, trivial⟩

theorem stage_state_ext {s1 s2 : stage_state}
    (hl : s1.layers = s2.layers) (hr : s1.routes = s2.routes) : s1 = s2 := by
  cases s1
  cases s2
  simp_all

theorem swap_false_fst_lookup (a b : stage_state) (k : Int) :
    SMap.lookup k (stage_swap_layers a b false).1.layers =
      if k ∈ key_union (SMap.keys b.layers) (SMap.keys a.layers) then
        some ({ (SMap.lookup k b.layers).getD layer.default_layer with
                tween := ((SMap.lookup k a.layers).getD layer.default_layer).tween })
      else SMap.lookup k b.layers := by
  unfold stage_swap_layers
  simp only [Bool.false_eq_true, if_false]
  exact (swap_tweens_lookup _ { a with layers := b.layers } { b with layers := a.layers }
    (sortedI_key_union _ _) k).1

theorem swap_false_snd_lookup (a b : stage_state) (k : Int) :
    SMap.lookup k (stage_swap_layers a b false).2.layers =
      if k ∈ key_union (SMap.keys b.layers) (SMap.keys a.layers) then
        some ({ (SMap.lookup k a.layers).getD layer.default_layer with
                tween := ((SMap.lookup k b.layers).getD layer.default_layer).tween })
      else SMap.lookup k a.layers := by
  unfold stage_swap_layers
  simp only [Bool.false_eq_true, if_false]
  exact (swap_tweens_lookup _ { a with layers := b.layers } { b with layers := a.layers }
    (sortedI_key_union _ _) k).2

theorem swap_false_fst_routes (a b : stage_state) :
    (stage_swap_layers a b false).1.routes = a.routes := by
  unfold stage_swap_layers
  simp only [Bool.false_eq_true, if_false]
  exact (swap_tweens_routes _ _ _).1

theorem swap_false_snd_routes (a b : stage_state) :
    (stage_swap_layers a b false).2.routes = b.routes := by
  unfold stage_swap_layers
  simp only [Bool.false_eq_true, if_false]
  exact (swap_tweens_routes _ _ _).2

theorem swap_false_fst_wf {a b : stage_state}
    (ha : SMap.wf a.layers = true) (hb : SMap.wf b.layers = true) :
    SMap.wf (stage_swap_layers a b false).1.layers = true := by
  unfold stage_swap_layers
  simp only [Bool.false_eq_true, if_false]
  exact (swap_tweens_wf _ (a := { a with layers := b.layers })
    (b := { b with layers := a.layers }) hb ha).1

theorem swap_false_snd_wf {a b : stage_state}
    (ha : SMap.wf a.layers = true) (hb : SMap.wf b.layers = true) :
    SMap.wf (stage_swap_layers a b false).2.layers = true := by
  unfold stage_swap_layers
  simp only [Bool.false_eq_true, if_false]
  exact (swap_tweens_wf _ (a := { a with layers := b.layers })
    (b := { b with layers := a.layers }) hb ha).2

theorem lookup_none_of_not_mem_keys {α : Type} {k : Int} {m : SMap α}
    (h : k ∉ SMap.keys m) : SMap.lookup k m = none := by
  cases hl : SMap.lookup k m with
  | none => rfl
  | some v =>
    exact absurd ((SMap.mem_keys_iff_lookup k m).mpr (by simp [hl])) h

/-- C3 (amended): with swap_transforms true, swapping the layer tables
of two stages twice is the identity; with swap_transforms false it is
the identity whenever both stages hold the same key set; and after a
single swap with swap_transforms false, every index that held a layer
on a stage still carries the same tween on that stage. -/
theorem claim3_swap_layers_symmetry (a b : stage_state)
    (ha : SMap.wf a.layers = true) (hb : SMap.wf b.layers = true) :
    (stage_swap_layers (stage_swap_layers a b true).1 (stage_swap_layers a b true).2 true
        = (a, b)) ∧
    (SMap.keys a.layers = SMap.keys b.layers →
      stage_swap_layers (stage_swap_layers a b false).1 (stage_swap_layers a b false).2 false
        = (a, b)) ∧
    (∀ i l, SMap.lookup i a.layers = some l →
      ∃ l', SMap.lookup i (stage_swap_layers a b false).1.layers = some l' ∧
        l'.tween = l.tween) ∧
    (∀ i l, SMap.lookup i b.layers = some l →
      ∃ l', SMap.lookup i (stage_swap_layers a b false).2.layers = some l' ∧
        l'.tween = l.tween) := by
  refine ⟨rfl, ?_, ?_, ?_⟩
  · intro hkeys
    have hU1 : ∀ k : Int,
        (k ∈ key_union (SMap.keys b.layers) (SMap.keys a.layers)) ↔
          k ∈ SMap.keys a.layers := by
      intro k
      rw [mem_key_union, ← hkeys]
      tauto
    have hwa : SMap.wf (stage_swap_layers a b false).1.layers = true :=
      swap_false_fst_wf ha hb
    have hwb : SMap.wf (stage_swap_layers a b false).2.layers = true :=
      swap_false_snd_wf ha hb
    have hmain : ∀ k : Int,
        (SMap.lookup k
            (stage_swap_layers (stage_swap_layers a b false).1
              (stage_swap_layers a b false).2 false).1.layers = SMap.lookup k a.layers) ∧
        (SMap.lookup k
            (stage_swap_layers (stage_swap_layers a b false).1
              (stage_swap_layers a b false).2 false).2.layers = SMap.lookup k b.layers) := by
      intro k
      by_cases hk : k ∈ SMap.keys a.layers
      · obtain ⟨la, hla⟩ := Option.isSome_iff_exists.mp
          ((SMap.mem_keys_iff_lookup k a.layers).mp hk)
        have hkb : k ∈ SMap.keys b.layers := hkeys ▸ hk
        obtain ⟨lb, hlb⟩ := Option.isSome_iff_exists.mp
          ((SMap.mem_keys_iff_lookup k b.layers).mp hkb)
        have h1 : SMap.lookup k (stage_swap_layers a b false).1.layers =
            some ({ lb with tween := la.tween }) := by
          rw [swap_false_fst_lookup, if_pos ((hU1 k).mpr hk), hla, hlb]
          exact rfl
        have h2 : SMap.lookup k (stage_swap_layers a b false).2.layers =
            some ({ la with tween := lb.tween }) := by
          rw [swap_false_snd_lookup, if_pos ((hU1 k).mpr hk), hla, hlb]
          exact rfl
        have hU2 : k ∈ key_union (SMap.keys (stage_swap_layers a b false).2.layers)
            (SMap.keys (stage_swap_layers a b false).1.layers) := by
          rw [mem_key_union]
          left
          rw [SMap.mem_keys_iff_lookup, h2]
          rfl
        constructor
        · rw [swap_false_fst_lookup, if_pos hU2, h1, h2, hla]
          simp only [Option.getD_some]
        · rw [swap_false_snd_lookup, if_pos hU2, h1, h2, hlb]
          simp only [Option.getD_some]
      · have hkb : k ∉ SMap.keys b.layers := fun hc => hk (hkeys.symm ▸ hc)
        have hna : SMap.lookup k a.layers = none := lookup_none_of_not_mem_keys hk
        have hnb : SMap.lookup k b.layers = none := lookup_none_of_not_mem_keys hkb
        have h1 : SMap.lookup k (stage_swap_layers a b false).1.layers = none := by
          rw [swap_false_fst_lookup, if_neg (fun hc => hk ((hU1 k).mp hc)), hnb]
        have h2 : SMap.lookup k (stage_swap_layers a b false).2.layers = none := by
          rw [swap_false_snd_lookup, if_neg (fun hc => hk ((hU1 k).mp hc)), hna]
        have hU2 : k ∉ key_union (SMap.keys (stage_swap_layers a b false).2.layers)
            (SMap.keys (stage_swap_layers a b false).1.layers) := by
          rw [mem_key_union]
          rintro (hc | hc)
          · rw [SMap.mem_keys_iff_lookup, h2] at hc
            simp at hc
          · rw [SMap.mem_keys_iff_lookup, h1] at hc
            simp at hc
        constructor
        · rw [swap_false_fst_lookup, if_neg hU2, h2, hna]
        · rw [swap_false_snd_lookup, if_neg hU2, h1, hnb]
    have hfst : (stage_swap_layers (stage_swap_layers a b false).1
        (stage_swap_layers a b false).2 false).1 = a := by
      refine stage_state_ext ?_ ?_
      · exact SMap.ext (swap_false_fst_wf hwa hwb) ha (fun k => (hmain k).1)
      · rw [swap_false_fst_routes, swap_false_fst_routes]
    have hsnd : (stage_swap_layers (stage_swap_layers a b false).1
        (stage_swap_layers a b false).2 false).2 = b := by
      refine stage_state_ext ?_ ?_
      · exact SMap.ext (swap_false_snd_wf hwa hwb) hb (fun k => (hmain k).2)
      · rw [swap_false_snd_routes, swap_false_snd_routes]
    exact Prod.ext hfst hsnd
  · intro i l hl
    have hmem : i ∈ key_union (SMap.keys b.layers) (SMap.keys a.layers) := by
      rw [mem_key_union]
      right
      rw [SMap.mem_keys_iff_lookup, hl]
      rfl
    refine ⟨_, by rw [swap_false_fst_lookup, if_pos hmem], ?_⟩
    rw [hl]
    exact rfl
  · intro i l hl
    have hmem : i ∈ key_union (SMap.keys b.layers) (SMap.keys a.layers) := by
      rw [mem_key_union]
      left
      rw [SMap.mem_keys_iff_lookup, hl]
      rfl
    refine ⟨_, by rw [swap_false_snd_lookup, if_pos hmem], ?_⟩
    rw [hl]
    exact rfl

/-- Witness for C3: the double swap identity applied to two concrete
one-layer stages. -/
theorem claim3_swap_layers_symmetry_witness :
    stage_swap_layers (stage_swap_layers swap_ex_a swap_w_b true).1
        (stage_swap_layers swap_ex_a swap_w_b true).2 true = (swap_ex_a, swap_w_b) :=
  (claim3_swap_layers_symmetry swap_ex_a swap_w_b (by decide) (by decide)).1

/-- C3 counterexample: with swap_transforms false, swapping a one-layer
stage with an empty stage twice is not the identity; the tween-swap
loop leaves a placeholder layer on the formerly empty stage. -/
theorem claim3_swap_layers_counterexample :
    ¬ (stage_swap_layers (stage_swap_layers swap_ex_a swap_ex_b false).1
        (stage_swap_layers swap_ex_a swap_ex_b false).2 false = (swap_ex_a, swap_ex_b)) := by
  intro h
  have hlen : ((stage_swap_layers (stage_swap_layers swap_ex_a swap_ex_b false).1
      (stage_swap_layers swap_ex_a swap_ex_b false).2 false).2.layers).length = 1 := rfl
  rw [h] at hlen
  exact absurd hlen (by decide)

/-- C4 (amended): the self-aliased swap_layers call returns a ready
handle and is a no-op, but the self-aliased cross-stage swap_layer
falls through to the intra-stage swap (with a pending executor
handle): for distinct indices the two records are exchanged, with the
tweens swapped back when swap_transforms is false, so it is not a
no-op in general. -/
theorem claim4_self_swap (s : stage_state) (i j : Int) (st : Bool) :
    stage_swap_layers_self s st = (s, task_handle.ready) ∧
    stage_swap_layer_cross_self i j st s =
      (stage_swap_layer_intra i j st s, task_handle.pending) ∧
    (i ≠ j →
      SMap.lookup i (stage_swap_layer_intra i j st s).layers =
        some (if st then (SMap.lookup j s.layers).getD layer.default_layer
          else { (SMap.lookup j s.layers).getD layer.default_layer with
                 tween := ((SMap.lookup i s.layers).getD layer.default_layer).tween }) ∧
      SMap.lookup j (stage_swap_layer_intra i j st s).layers =
        some (if st then (SMap.lookup i s.layers).getD layer.default_layer
          else { (SMap.lookup i s.layers).getD layer.default_layer with
                 tween := ((SMap.lookup j s.layers).getD layer.default_layer).tween })) ∧
    (∀ k, k ≠ i → k ≠ j →
      SMap.lookup k (stage_swap_layer_intra i j st s).layers = SMap.lookup k s.layers) ∧
    (stage_swap_layer_intra i j st s).routes = s.routes := by
  refine ⟨rfl, rfl, ?_, ?_, ?_⟩
  · intro hij
    have hji : ¬ j = i := fun hc => hij hc.symm
    have hij' : ¬ i = j := hij
    unfold stage_swap_layer_intra
    simp only [get_layer_fst, get_layer_lookup, get_layer_routes, if_neg hij',
      if_neg hji]
    cases st with
    | false =>
      simp only [Bool.false_eq_true, if_false, SMap.lookup_insert, get_layer_lookup,
        if_neg hij', if_neg hji, if_pos rfl]
      exact ⟨rfl, rfl⟩
    | true =>
      simp only [if_true, SMap.lookup_insert, get_layer_lookup,
        if_neg hij', if_neg hji, if_pos rfl]
      exact ⟨trivial, trivial⟩
  · intro k hki hkj
    have h1 : ¬ i = k := fun hc => hki hc.symm
    have h2 : ¬ j = k := fun hc => hkj hc.symm
    unfold stage_swap_layer_intra
    by_cases hij : i = j
    · simp only [if_pos hij, get_layer_lookup, if_neg h1]
      subst hij
      simp only [get_layer_lookup, if_neg h1]
    · simp only [if_neg hij]
      cases st with
      | false =>
        simp only [Bool.false_eq_true, if_false, SMap.lookup_insert, if_neg h1, if_neg h2,
          get_layer_lookup]
      | true =>
        simp only [if_true, SMap.lookup_insert, if_neg h1, if_neg h2, get_layer_lookup]
  · unfold stage_swap_layer_intra
    by_cases hij : i = j
    · simp [if_pos hij, get_layer_routes, get_layer]
    · cases st with
      | false => simp [if_neg hij, get_layer_routes, get_layer]
      | true => simp [if_neg hij, get_layer_routes, get_layer]

/-- C4 counterexample: on a stage holding only a layer at index 0, the
self-aliased cross-stage swap_layer of indices 0 and 1 changes the
layer table (and its handle is the pending executor handle, not an
immediately ready one). -/
theorem claim4_self_swap_counterexample :
    ¬ ((stage_swap_layer_cross_self 0 1 false swap_ex_a).1 = swap_ex_a ∧
       (stage_swap_layer_cross_self 0 1 false swap_ex_a).2 = task_handle.ready) := by
  rintro ⟨h1, h2⟩
  have hlen : ((stage_swap_layer_cross_self 0 1 false swap_ex_a).1.layers).length = 2 := rfl
  rw [h1] at hlen
  exact absurd hlen (by decide)

/-- C10: stage::execute applies the function synchronously (the
returned state already reflects it) and returns a ready handle without
touching the executor queue; every other command submission leaves the
state unchanged, appends its closure to the FIFO (pending handle), and
takes effect only when the queue drains. -/
theorem claim10_execute_synchronous (f : stage_state → stage_state) (e : stage_exec) :
    stage_execute f e = (⟨f e.state, e.queue⟩, task_handle.ready) ∧
    (∀ t, stage_submit t e = (⟨e.state, e.queue ++ [t]⟩, task_handle.pending)) ∧
    (∀ t, run_queue (stage_submit t e).1 = t (run_queue e)) := by
  refine ⟨rfl, fun t => rfl, fun t => ?_⟩
  unfold run_queue stage_submit
  simp [List.foldl_append]

/-- C1 (amended): apply_transform installs at the index a tween whose
source is the previous tween's fetched (non-advancing) transform and
whose destination applies f to that same fetched transform — not to the
previous destination — with the given duration and easing and the
elapsed frame count reset to zero; an apply_transforms batch element
instead applies f to the previous tween's destination, with the same
source, duration, easing and reset.  Other indices and the route table
are untouched. -/
theorem claim1_apply_transform (s : stage_state) (i : Int)
    (f : frame_transform → frame_transform) (d e : Nat) (x : transform_item) :
    (SMap.lookup i (stage_apply_transform i f d e s).layers =
      some ({ (SMap.lookup i s.layers).getD layer.default_layer with
              tween := ⟨((SMap.lookup i s.layers).getD layer.default_layer).tween.fetch,
                        f (((SMap.lookup i s.layers).getD layer.default_layer).tween.fetch),
                        d, 0, e⟩ })) ∧
    (∀ j, j ≠ i →
      SMap.lookup j (stage_apply_transform i f d e s).layers = SMap.lookup j s.layers) ∧
    (stage_apply_transform i f d e s).routes = s.routes ∧
    (SMap.lookup x.index (batch_transform_step s x).layers =
      some ({ (SMap.lookup x.index s.layers).getD layer.default_layer with
              tween := ⟨((SMap.lookup x.index s.layers).getD layer.default_layer).tween.fetch,
                        x.func (((SMap.lookup x.index s.layers).getD layer.default_layer).tween.dest),
                        x.mix_duration, 0, x.easing⟩ })) ∧
    (∀ j, j ≠ x.index →
      SMap.lookup j (batch_transform_step s x).layers = SMap.lookup j s.layers) ∧
    (stage_apply_transforms [x] s = batch_transform_step s x) := by
  refine ⟨?_, ?_, rfl, ?_, ?_, rfl⟩
  · unfold stage_apply_transform
    simp only [get_layer_fst, SMap.lookup_insert, if_pos rfl, if_true]
  · intro j hj
    have hij : ¬ i = j := fun hc => hj hc.symm
    unfold stage_apply_transform
    simp only [SMap.lookup_insert, if_neg hij, get_layer_lookup, if_neg hij]
  · unfold batch_transform_step
    simp only [get_layer_fst, SMap.lookup_insert, if_pos rfl, if_true]
  · intro j hj
    have hij : ¬ x.index = j := fun hc => hj hc.symm
    unfold batch_transform_step
    simp only [SMap.lookup_insert, if_neg hij, get_layer_lookup, if_neg hij]

theorem wf_keys_nodup {α : Type} {m : SMap α} (h : SMap.wf m = true) :
    (SMap.keys m).Nodup := by
  induction m with
  | nil => simp [SMap.keys]
  | cons kv rest ih =>
    simp only [SMap.keys, List.map_cons, List.nodup_cons]
    refine ⟨fun hmem => ?_, ih (SMap.wf_tail h)⟩
    exact absurd (SMap.wf_head_lt h kv.1 hmem) (lt_irrefl kv.1)

theorem mem_of_erase {α : Type} {k : Int} {m : SMap α} {kv : Int × α}
    (h : kv ∈ SMap.erase k m) : kv ∈ m := by
  induction m with
  | nil => simp [SMap.erase] at h
  | cons hd rest ih =>
    simp only [SMap.erase] at h
    by_cases h1 : hd.1 = k
    · rw [if_pos h1] at h
      exact List.mem_cons_of_mem hd h
    · rw [if_neg h1] at h
      rcases List.mem_cons.mp h with h' | h'
      · exact h' ▸ List.mem_cons_self hd rest
      · exact List.mem_cons_of_mem hd (ih h')

theorem routes_nonempty_lookup {s : stage_state} (hne : routes_nonempty s = true) :
    ∀ k m', SMap.lookup k s.routes = some m' → m' ≠ [] := by
  intro k m' h hm
  have hmem := SMap.mem_of_lookup_eq_some h
  rw [routes_nonempty, List.all_eq_true] at hne
  have := hne (k, m') hmem
  rw [hm] at this
  simp at this

theorem routes_nonempty_of_lookup {s : stage_state} (hw : SMap.wf s.routes = true)
    (h : ∀ k m', SMap.lookup k s.routes = some m' → m' ≠ []) :
    routes_nonempty s = true := by
  rw [routes_nonempty, List.all_eq_true]
  intro kv hkv
  have := h kv.1 kv.2 (SMap.lookup_of_mem_wf hw hkv)
  simpa [List.isEmpty_iff] using this

theorem seeded_fold_lookup (lk : List Int) (r0 : SMap (SMap route_entry)) (k : Int) :
    SMap.lookup k (lk.foldl (fun r j => (SMap.ensure j ([] : SMap route_entry) r).2) r0) =
      match SMap.lookup k r0 with
      | some v => some v
      | none => if k ∈ lk then some [] else none := by
  induction lk generalizing r0 with
  | nil =>
    cases h0 : SMap.lookup k r0 <;> simp [h0]
  | cons j rest ih =>
    simp only [List.foldl_cons]
    rw [ih, SMap.lookup_ensure]
    by_cases hj : j = k
    · subst hj
      cases h0 : SMap.lookup j r0 with
      | some v => simp [h0]
      | none => simp [h0, List.mem_cons]
    · rw [if_neg hj]
      cases h0 : SMap.lookup k r0 with
      | some v => simp
      | none =>
        have hmem : (k ∈ j :: rest) ↔ (k ∈ rest) := by
          simp only [List.mem_cons]
          constructor
          · rintro (hc | hc)
            · exact absurd hc.symm hj
            · exact hc
          · exact Or.inr
        simp only []
        by_cases hk : k ∈ rest
        · rw [if_pos hk, if_pos (hmem.mpr hk)]
        · rw [if_neg hk, if_neg (fun hc => hk (hmem.mp hc))]

theorem seeded_fold_wf (lk : List Int) {r0 : SMap (SMap route_entry)}
    (h : SMap.wf r0 = true) :
    SMap.wf (lk.foldl (fun r j => (SMap.ensure j ([] : SMap route_entry) r).2) r0) = true := by
  induction lk generalizing r0 with
  | nil => exact h
  | cons j rest ih => exact ih (SMap.wf_ensure j [] h)

theorem seeded_routes_lookup (s : stage_state) (k : Int) :
    SMap.lookup k (seeded_routes s) =
      match SMap.lookup k s.routes with
      | some v => some v
      | none => if k ∈ layer_keys s then some [] else none :=
  seeded_fold_lookup (layer_keys s) s.routes k

theorem seeded_routes_wf {s : stage_state} (h : SMap.wf s.routes = true) :
    SMap.wf (seeded_routes s) = true :=
  seeded_fold_wf (layer_keys s) h

theorem preseed_fold_lookup (idxs : List Int) (f0 : SMap draw_frame) (k : Int) :
    SMap.lookup k (idxs.foldl (fun f j => SMap.insert j draw_frame.empty f) f0) =
      if k ∈ idxs then some draw_frame.empty else SMap.lookup k f0 := by
  induction idxs generalizing f0 with
  | nil => simp
  | cons j rest ih =>
    simp only [List.foldl_cons]
    rw [ih, SMap.lookup_insert]
    by_cases hk : k ∈ rest
    · rw [if_pos hk, if_pos (List.mem_cons.mpr (Or.inr hk))]
    · rw [if_neg hk]
      by_cases hj : j = k
      · rw [if_pos hj, if_pos (List.mem_cons.mpr (Or.inl hj.symm))]
      · rw [if_neg hj, if_neg (fun hc => by
          rcases List.mem_cons.mp hc with hc' | hc'
          · exact hj hc'.symm
          · exact hk hc')]

theorem preseed_frames_lookup (s : stage_state) (k : Int) :
    SMap.lookup k (preseed_frames s) =
      if k ∈ active_idxs s then some draw_frame.empty else none :=
  preseed_fold_lookup (active_idxs s) [] k

theorem mem_route_only_keys {s : stage_state} (hw : SMap.wf s.routes = true) (k : Int) :
    k ∈ route_only_keys s ↔
      (k ∉ layer_keys s ∧ ∃ m', SMap.lookup k s.routes = some m' ∧ m' ≠ []) := by
  unfold route_only_keys
  rw [List.mem_map]
  constructor
  · rintro ⟨kv, hkv, rfl⟩
    rcases List.mem_filter.mp hkv with ⟨hmem, hcond⟩
    rw [Bool.and_eq_true, Bool.not_eq_true', Bool.not_eq_true'] at hcond
    have hlk : kv.1 ∉ layer_keys s := fun hc =>
      by
        have := List.elem_iff.mpr hc
        rw [List.contains, this] at hcond
        exact absurd hcond.2 (by simp)
    have hlkup : SMap.lookup kv.1 (seeded_routes s) = some kv.2 :=
      SMap.lookup_of_mem_wf (seeded_routes_wf hw) hmem
    rw [seeded_routes_lookup] at hlkup
    refine ⟨hlk, kv.2, ?_, ?_⟩
    · cases h0 : SMap.lookup kv.1 s.routes with
      | some v =>
        rw [h0] at hlkup
        simpa using hlkup
      | none =>
        rw [h0, if_neg hlk] at hlkup
        simp at hlkup
    · intro hc
      rw [hc] at hcond
      simp at hcond
  · rintro ⟨hlk, m', hm', hne⟩
    refine ⟨(k, m'), List.mem_filter.mpr ⟨?_, ?_⟩, rfl⟩
    · apply SMap.mem_of_lookup_eq_some
      rw [seeded_routes_lookup, hm']
    · rw [Bool.and_eq_true, Bool.not_eq_true', Bool.not_eq_true']
      constructor
      · simpa [List.isEmpty_iff] using hne
      · rw [← Bool.not_eq_true]
        intro hc
        exact hlk (List.elem_iff.mp hc)

theorem mem_active_idxs {s : stage_state} (hw : SMap.wf s.routes = true) (k : Int) :
    k ∈ active_idxs s ↔
      k ∈ SMap.keys s.layers ∨ route_nonempty_at s k = true := by
  unfold active_idxs
  rw [List.mem_append, mem_route_only_keys hw]
  unfold route_nonempty_at
  constructor
  · rintro (h | ⟨hlk, m', hm', hne⟩)
    · exact Or.inl h
    · right
      rw [hm']
      simpa [List.isEmpty_iff] using hne
  · rintro (h | h)
    · exact Or.inl h
    · by_cases hlk : k ∈ layer_keys s
      · exact Or.inl hlk
      · right
        refine ⟨hlk, ?_⟩
        cases h0 : SMap.lookup k s.routes with
        | some v =>
          rw [h0] at h
          refine ⟨v, rfl, ?_⟩
          simpa [List.isEmpty_iff] using h
        | none =>
          rw [h0] at h
          simp at h

theorem active_idxs_nodup {s : stage_state}
    (hwl : SMap.wf s.layers = true) (hwr : SMap.wf s.routes = true) :
    (active_idxs s).Nodup := by
  unfold active_idxs
  refine List.nodup_append.mpr ⟨wf_keys_nodup hwl, ?_, ?_⟩
  · unfold route_only_keys
    refine List.Nodup.sublist ?_ (wf_keys_nodup (seeded_routes_wf hwr))
    exact List.Sublist.map Prod.fst (List.filter_sublist (seeded_routes s))
  · intro a ha hb
    rcases (mem_route_only_keys hwr a).mp hb with ⟨hlk, _⟩
    exact hlk ha

theorem idx_ok_eq (s : stage_state) (i : Int) :
    idx_ok s i = ((SMap.lookup i s.layers).getD layer.default_layer).receive.isOk := by
  unfold idx_ok
  rw [SMap.ensure_fst]

theorem idx_ok_congr {s s' : stage_state} {j : Int}
    (h : SMap.lookup j s'.layers = SMap.lookup j s.layers) :
    idx_ok s' j = idx_ok s j := by
  rw [idx_ok_eq, idx_ok_eq, h]

theorem idx_ok_default {s : stage_state} {j : Int}
    (h : SMap.lookup j s.layers = none) : idx_ok s j = true := by
  rw [idx_ok_eq, h]
  rfl

theorem stage_draw_error_of {s : stage_state} {i : Int} (h : idx_ok s i = false) :
    stage_draw i s = Except.error () := by
  unfold idx_ok at h
  unfold stage_draw
  cases hrec : ((SMap.ensure i layer.default_layer s.layers).1).receive with
  | error e =>
    cases e
    simp [hrec]
  | ok r =>
    rw [hrec] at h
    simp [Except.isOk, Except.toBool] at h

theorem stage_draw_ok_of {s : stage_state} {i : Int} (h : idx_ok s i = true) :
    ∃ r, stage_draw i s = Except.ok r := by
  unfold idx_ok at h
  unfold stage_draw
  cases hrec : ((SMap.ensure i layer.default_layer s.layers).1).receive with
  | error e =>
    rw [hrec] at h
    simp [Except.isOk, Except.toBool] at h
  | ok r =>
    simp only [hrec]
    exact ⟨_, rfl⟩

theorem stage_draw_ok_char {s : stage_state} {i : Int}
    {r : stage_state × List (Nat × draw_frame) × draw_frame}
    (h : stage_draw i s = Except.ok r) :
    ∃ raw tr l',
      ((SMap.ensure i layer.default_layer s.layers).1).receive = Except.ok (raw, tr, l') ∧
      r.1.layers = SMap.insert i l' (SMap.ensure i layer.default_layer s.layers).2 ∧
      r.1.routes = (SMap.ensure i ([] : SMap route_entry) s.routes).2 ∧
      r.2.2 = tr := by
  unfold stage_draw at h
  cases hrec : ((SMap.ensure i layer.default_layer s.layers).1).receive with
  | error e =>
    simp only [hrec] at h
    simp at h
  | ok rr =>
    simp only [hrec, Except.ok.injEq] at h
    refine ⟨rr.1, rr.2.1, rr.2.2, by exact rfl, ?_, ?_, ?_⟩
    · rw [← h]
    · rw [← h]
    · rw [← h]

theorem stage_draw_layers_lookup {s : stage_state} {i : Int}
    {r : stage_state × List (Nat × draw_frame) × draw_frame}
    (h : stage_draw i s = Except.ok r) (j : Int) (hij : ¬ i = j) :
    SMap.lookup j r.1.layers = SMap.lookup j s.layers := by
  obtain ⟨raw, tr, l', hrec, hl, hr, ht⟩ := stage_draw_ok_char h
  rw [hl, SMap.lookup_insert, if_neg hij, SMap.lookup_ensure, if_neg hij]

theorem stage_draw_layers_at {s : stage_state} {i : Int}
    {r : stage_state × List (Nat × draw_frame) × draw_frame}
    (h : stage_draw i s = Except.ok r) :
    (SMap.lookup i r.1.layers).isSome = true := by
  obtain ⟨raw, tr, l', hrec, hl, hr, ht⟩ := stage_draw_ok_char h
  rw [hl, SMap.lookup_insert, if_pos rfl]
  rfl

theorem stage_draw_routes_lookup {s : stage_state} {i : Int}
    {r : stage_state × List (Nat × draw_frame) × draw_frame}
    (h : stage_draw i s = Except.ok r) (j : Int) :
    SMap.lookup j r.1.routes =
      if i = j then some ((SMap.lookup i s.routes).getD []) else SMap.lookup j s.routes := by
  obtain ⟨raw, tr, l', hrec, hl, hr, ht⟩ := stage_draw_ok_char h
  rw [hr, SMap.lookup_ensure]

theorem draw_all_ok (idxs : List Int) (s : stage_state) (f : SMap draw_frame)
    (sd : List (Nat × draw_frame)) (hnd : idxs.Nodup)
    (h : ∀ j ∈ idxs, idx_ok s j = true) :
    ∃ r, draw_all idxs s f sd = Except.ok r := by
  induction idxs generalizing s f sd with
  | nil => exact ⟨_, rfl⟩
  | cons i rest ih =>
    obtain ⟨r0, hr0⟩ := stage_draw_ok_of (h i (List.mem_cons_self i rest))
    rw [List.nodup_cons] at hnd
    have hnext : ∀ j ∈ rest, idx_ok r0.1 j = true := by
      intro j hj
      have hij : ¬ i = j := fun hc => hnd.1 (hc ▸ hj)
      rw [idx_ok_congr (stage_draw_layers_lookup hr0 j hij)]
      exact h j (List.mem_cons_of_mem i hj)
    obtain ⟨r, hr⟩ := ih r0.1 (SMap.insert i r0.2.2 f) (sd ++ r0.2.1) hnd.2 hnext
    refine ⟨r, ?_⟩
    simp only [draw_all, hr0]
    exact hr

theorem draw_all_error (idxs : List Int) (s : stage_state) (f : SMap draw_frame)
    (sd : List (Nat × draw_frame)) (hnd : idxs.Nodup)
    (h : ∃ j ∈ idxs, idx_ok s j = false) :
    draw_all idxs s f sd = Except.error () := by
  induction idxs generalizing s f sd with
  | nil => simp at h
  | cons i rest ih =>
    rw [List.nodup_cons] at hnd
    by_cases hoki : idx_ok s i = true
    · obtain ⟨r0, hr0⟩ := stage_draw_ok_of hoki
      simp only [draw_all, hr0]
      obtain ⟨j, hj, hjf⟩ := h
      rcases List.mem_cons.mp hj with hj' | hj'
      · rw [hj'] at hjf
        rw [hjf] at hoki
        simp at hoki
      · refine ih r0.1 _ _ hnd.2 ⟨j, hj', ?_⟩
        have hij : ¬ i = j := fun hc => hnd.1 (hc ▸ hj')
        rw [idx_ok_congr (stage_draw_layers_lookup hr0 j hij)]
        exact hjf
    · have hoki' : idx_ok s i = false := by
        cases hx : idx_ok s i
        · rfl
        · exact absurd hx hoki
      simp only [draw_all, stage_draw_error_of hoki']

theorem draw_all_frames_keys (idxs : List Int) (s : stage_state) (f : SMap draw_frame)
    (sd : List (Nat × draw_frame)) (r : stage_state × SMap draw_frame × List (Nat × draw_frame))
    (h : draw_all idxs s f sd = Except.ok r) (k : Int) :
    k ∈ SMap.keys r.2.1 ↔ k ∈ idxs ∨ k ∈ SMap.keys f := by
  induction idxs generalizing s f sd with
  | nil =>
    simp only [draw_all, Except.ok.injEq] at h
    rw [← h]
    simp
  | cons i rest ih =>
    unfold draw_all at h
    cases hd : stage_draw i s with
    | error e =>
      rw [hd] at h
      simp at h
    | ok r0 =>
      rw [hd] at h
      have := ih r0.1 (SMap.insert i r0.2.2 f) (sd ++ r0.2.1) h
      rw [this, SMap.mem_keys_insert]
      simp only [List.mem_cons]
      tauto

theorem draw_all_layers_isSome (idxs : List Int) (s : stage_state) (f : SMap draw_frame)
    (sd : List (Nat × draw_frame)) (r : stage_state × SMap draw_frame × List (Nat × draw_frame))
    (h : draw_all idxs s f sd = Except.ok r) (k : Int)
    (hk : k ∈ idxs ∨ (SMap.lookup k s.layers).isSome = true) :
    (SMap.lookup k r.1.layers).isSome = true := by
  induction idxs generalizing s f sd with
  | nil =>
    simp only [draw_all, Except.ok.injEq] at h
    rw [← h]
    rcases hk with hk | hk
    · simp at hk
    · exact hk
  | cons i rest ih =>
    unfold draw_all at h
    cases hd : stage_draw i s with
    | error e =>
      rw [hd] at h
      simp at h
    | ok r0 =>
      rw [hd] at h
      refine ih r0.1 (SMap.insert i r0.2.2 f) (sd ++ r0.2.1) h ?_
      by_cases hik : i = k
      · right
        rw [← hik]
        exact stage_draw_layers_at hd
      · rcases hk with hk | hk
        · rcases List.mem_cons.mp hk with hk' | hk'
          · exact absurd hk'.symm hik
          · exact Or.inl hk'
        · right
          rw [stage_draw_layers_lookup hd k hik]
          exact hk

theorem draw_all_routes_isSome (idxs : List Int) (s : stage_state) (f : SMap draw_frame)
    (sd : List (Nat × draw_frame)) (r : stage_state × SMap draw_frame × List (Nat × draw_frame))
    (h : draw_all idxs s f sd = Except.ok r) (k : Int)
    (hk : (SMap.lookup k s.routes).isSome = true) :
    (SMap.lookup k r.1.routes).isSome = true := by
  induction idxs generalizing s f sd with
  | nil =>
    simp only [draw_all, Except.ok.injEq] at h
    rw [← h]
    exact hk
  | cons i rest ih =>
    unfold draw_all at h
    cases hd : stage_draw i s with
    | error e =>
      rw [hd] at h
      simp at h
    | ok r0 =>
      rw [hd] at h
      refine ih r0.1 (SMap.insert i r0.2.2 f) (sd ++ r0.2.1) h ?_
      rw [stage_draw_routes_lookup hd k]
      by_cases hik : i = k
      · rw [if_pos hik]
        rfl
      · rw [if_neg hik]
        exact hk

theorem render_ok_active {s : stage_state} (h : render_ok s = true) :
    ∀ j ∈ active_idxs s, idx_ok ⟨s.layers, seeded_routes s⟩ j = true := by
  intro j hj
  rw [idx_ok_eq]
  cases h0 : SMap.lookup j s.layers with
  | none => rfl
  | some l =>
    rw [Option.getD_some]
    rw [render_ok, List.all_eq_true] at h
    exact h (j, l) (SMap.mem_of_lookup_eq_some h0)

theorem render_ok_false_exists {s : stage_state} (hwl : SMap.wf s.layers = true)
    (h : render_ok s = false) :
    ∃ j ∈ active_idxs s, idx_ok ⟨s.layers, seeded_routes s⟩ j = false := by
  rw [render_ok, List.all_eq_false] at h
  obtain ⟨kv, hmem, hnot⟩ := h
  rw [Bool.not_eq_true] at hnot
  refine ⟨kv.1, ?_, ?_⟩
  · unfold active_idxs
    refine List.mem_append.mpr (Or.inl ?_)
    exact List.mem_map.mpr ⟨kv, hmem, rfl⟩
  · rw [idx_ok_eq]
    have hlk : SMap.lookup kv.1 (stage_state.mk s.layers (seeded_routes s)).layers =
        some kv.2 := SMap.lookup_of_mem_wf hwl hmem
    rw [hlk, Option.getD_some]
    exact hnot

theorem stage_render_ok_case {s : stage_state}
    (hwl : SMap.wf s.layers = true) (hwr : SMap.wf s.routes = true)
    (h : render_ok s = true) :
    ∃ r, draw_all (active_idxs s) ⟨s.layers, seeded_routes s⟩ (preseed_frames s) []
        = Except.ok r ∧ stage_render s = r := by
  obtain ⟨r, hr⟩ := draw_all_ok (active_idxs s) ⟨s.layers, seeded_routes s⟩
    (preseed_frames s) [] (active_idxs_nodup hwl hwr) (render_ok_active h)
  refine ⟨r, hr, ?_⟩
  unfold stage_render
  rw [hr]

theorem stage_render_error_case {s : stage_state}
    (hwl : SMap.wf s.layers = true) (hwr : SMap.wf s.routes = true)
    (h : render_ok s = false) :
    stage_render s = (⟨[], seeded_routes s⟩, preseed_frames s, []) := by
  have herr := draw_all_error (active_idxs s) ⟨s.layers, seeded_routes s⟩
    (preseed_frames s) [] (active_idxs_nodup hwl hwr) (render_ok_false_exists hwl h)
  unfold stage_render
  rw [herr]

theorem insert_new_ne_nil {α : Type} (k : Int) (v : α) (m : SMap α) :
    SMap.insert_new k v m ≠ [] := by
  unfold SMap.insert_new
  cases h : SMap.lookup k m with
  | some w =>
    cases m with
    | nil => simp [SMap.lookup] at h
    | cons hd rest => simp
  | none => exact SMap.insert_ne_nil k v m

theorem stage_inv_parts {s : stage_state} (h : stage_inv s = true) :
    SMap.wf s.layers = true ∧ SMap.wf s.routes = true ∧ routes_nonempty s = true := by
  rw [stage_inv, Bool.and_eq_true, Bool.and_eq_true] at h
  exact ⟨h.1.1, h.1.2, h.2⟩

theorem stage_inv_mk {s : stage_state} (h1 : SMap.wf s.layers = true)
    (h2 : SMap.wf s.routes = true) (h3 : routes_nonempty s = true) :
    stage_inv s = true := by
  rw [stage_inv, h1, h2, h3]
  rfl

theorem add_route_nonempty {s : stage_state}
    (hwr : SMap.wf s.routes = true) (hne : routes_nonempty s = true)
    (tok i : Int) (m : frame_consumer_mode) (c : Nat) :
    routes_nonempty (stage_add_route tok i m c s) = true := by
  have hwf' : SMap.wf (stage_add_route tok i m c s).routes = true :=
    SMap.wf_insert i _ (SMap.wf_ensure i [] hwr)
  refine routes_nonempty_of_lookup hwf' ?_
  intro k m' hk
  unfold stage_add_route at hk
  rw [SMap.lookup_insert] at hk
  by_cases hik : i = k
  · rw [if_pos hik] at hk
    rw [← Option.some.inj hk]
    exact insert_new_ne_nil tok (route_entry.mk m c) _
  · rw [if_neg hik, SMap.lookup_ensure, if_neg hik] at hk
    exact routes_nonempty_lookup hne k m' hk

theorem remove_route_nonempty {s : stage_state}
    (hwr : SMap.wf s.routes = true) (hne : routes_nonempty s = true) (tok i : Int) :
    routes_nonempty (stage_remove_route tok i s) = true := by
  unfold stage_remove_route
  by_cases hempty : (SMap.erase tok (SMap.ensure i ([] : SMap route_entry) s.routes).1).isEmpty = true
  · rw [if_pos hempty]
    refine routes_nonempty_of_lookup (SMap.wf_erase i (SMap.wf_ensure i [] hwr)) ?_
    intro k m' hk
    rw [SMap.lookup_erase i k (SMap.wf_ensure i [] hwr)] at hk
    by_cases hik : i = k
    · rw [if_pos hik] at hk
      simp at hk
    · rw [if_neg hik, SMap.lookup_ensure, if_neg hik] at hk
      exact routes_nonempty_lookup hne k m' hk
  · rw [if_neg hempty]
    refine routes_nonempty_of_lookup (SMap.wf_insert i _ (SMap.wf_ensure i [] hwr)) ?_
    intro k m' hk
    rw [SMap.lookup_insert] at hk
    by_cases hik : i = k
    · rw [if_pos hik] at hk
      rw [← Option.some.inj hk]
      intro hc
      rw [hc] at hempty
      simp at hempty
    · rw [if_neg hik, SMap.lookup_ensure, if_neg hik] at hk
      exact routes_nonempty_lookup hne k m' hk

theorem stage_inv_apply {s : stage_state} (h : stage_inv s = true) (c : stage_cmd) :
    stage_inv (stage_cmd.apply s c) = true := by
  obtain ⟨hwl, hwr, hne⟩ := stage_inv_parts h
  cases c with
  | load i p preview auto =>
    refine stage_inv_mk ?_ hwr hne
    exact SMap.wf_insert i _ (SMap.wf_ensure i layer.default_layer hwl)
  | add_route tok i m c =>
    refine stage_inv_mk hwl ?_ (add_route_nonempty hwr hne tok i m c)
    exact SMap.wf_insert i _ (SMap.wf_ensure i [] hwr)
  | clear_one i =>
    exact stage_inv_mk (SMap.wf_erase i hwl) hwr hne
  | clear_all =>
    exact stage_inv_mk rfl hwr hne

theorem stage_inv_run (cmds : List stage_cmd) : stage_inv (run_cmds cmds) = true := by
  unfold run_cmds
  induction cmds using List.reverseRecOn with
  | nil => rfl
  | append_singleton rest c ih =>
    rw [List.foldl_append]
    exact stage_inv_apply ih c

theorem render_keys_of_inv {s : stage_state}
    (hwl : SMap.wf s.layers = true) (hwr : SMap.wf s.routes = true)
    (hne : routes_nonempty s = true) (k : Int) :
    k ∈ SMap.keys (stage_render s).2.1 ↔
      k ∈ SMap.keys s.layers ∨ k ∈ SMap.keys s.routes := by
  have hact : (k ∈ active_idxs s) ↔
      (k ∈ SMap.keys s.layers ∨ k ∈ SMap.keys s.routes) := by
    rw [mem_active_idxs hwr]
    constructor
    · rintro (h | h)
      · exact Or.inl h
      · right
        unfold route_nonempty_at at h
        cases h0 : SMap.lookup k s.routes with
        | some v =>
          rw [SMap.mem_keys_iff_lookup, h0]
          rfl
        | none =>
          rw [h0] at h
          simp at h
    · rintro (h | h)
      · exact Or.inl h
      · right
        obtain ⟨v, hv⟩ := Option.isSome_iff_exists.mp ((SMap.mem_keys_iff_lookup k _).mp h)
        unfold route_nonempty_at
        rw [hv]
        have := routes_nonempty_lookup hne k v hv
        simpa [List.isEmpty_iff] using this
  have hpre : (k ∈ SMap.keys (preseed_frames s)) ↔ k ∈ active_idxs s := by
    rw [SMap.mem_keys_iff_lookup, preseed_frames_lookup]
    by_cases h : k ∈ active_idxs s
    · simp [h]
    · simp [h]
  cases hro : render_ok s with
  | true =>
    obtain ⟨r, hr, hsr⟩ := stage_render_ok_case hwl hwr hro
    rw [hsr, draw_all_frames_keys _ _ _ _ _ hr k, hpre]
    rw [← hact]
    tauto
  | false =>
    rw [stage_render_error_case hwl hwr hro]
    exact hpre.trans hact

/-- C2: for every stage state reachable from a fresh stage by
add_route, load, and clear commands, the key set of the map returned by
the next render pass equals the union of the layer-table and
route-table key sets. -/
theorem claim2_render_keyset (cmds : List stage_cmd) (k : Int) :
    k ∈ SMap.keys (stage_render (run_cmds cmds)).2.1 ↔
      k ∈ SMap.keys (run_cmds cmds).layers ∨ k ∈ SMap.keys (run_cmds cmds).routes := by
  obtain ⟨hwl, hwr, hne⟩ := stage_inv_parts (stage_inv_run cmds)
  exact render_keys_of_inv hwl hwr hne k

/-- C5 (amended): add_route, remove_route, and the layer commands
(load, clear, clear-all, apply_transform) preserve the invariant that
no route-table key maps to an empty consumer map; the render pass does
not preserve it (see the counterexample), because it seeds a
possibly-empty consumer map for every layer index. -/
theorem claim5_route_invariant (s : stage_state)
    (hw : SMap.wf s.routes = true) (hne : routes_nonempty s = true) :
    (∀ tok i m c, routes_nonempty (stage_add_route tok i m c s) = true) ∧
    (∀ tok i, routes_nonempty (stage_remove_route tok i s) = true) ∧
    (∀ i p pv auto, routes_nonempty (stage_load i p pv auto s) = true) ∧
    (∀ i, routes_nonempty (stage_clear_one i s) = true) ∧
    (routes_nonempty (stage_clear_all s) = true) ∧
    (∀ i f d e, routes_nonempty (stage_apply_transform i f d e s) = true) := by
  refine ⟨fun tok i m c => add_route_nonempty hw hne tok i m c,
    fun tok i => remove_route_nonempty hw hne tok i,
    fun i p pv auto => hne, fun i => hne, hne, fun i f d e => hne⟩

/-- Witness for C5 at a concrete state carrying one route. -/
theorem claim5_route_invariant_witness :
    routes_nonempty (stage_remove_route 5 0 route_ex) = true :=
  (claim5_route_invariant route_ex (by decide) (by decide)).2.1 5 0

/-- C5 counterexample: a stage with one layer and no routes satisfies
the invariant, but after one render pass its route table carries an
empty consumer map for the layer index. -/
theorem claim5_route_invariant_counterexample :
    routes_nonempty (⟨[(0, layer.default_layer)], []⟩ : stage_state) = true ∧
    routes_nonempty (stage_render ⟨[(0, layer.default_layer)], []⟩).1 = false := by
  constructor
  · decide
  · decide

/-- C7: when an exception escapes the per-layer fan-out (some layer's
receive raises), the render pass swallows it: the layer table is
cleared, no consumer sends are made, and the returned map is the
pre-seeded one, mapping exactly the active indices (layer keys and
non-empty route keys) to the empty frame. -/
theorem claim7_render_exception (s : stage_state)
    (hwl : SMap.wf s.layers = true) (hwr : SMap.wf s.routes = true)
    (hfail : render_ok s = false) :
    (stage_render s).1.layers = [] ∧
    (stage_render s).2.2 = [] ∧
    (∀ k, SMap.lookup k (stage_render s).2.1 =
        if k ∈ SMap.keys s.layers ∨ route_nonempty_at s k = true
        then some draw_frame.empty else none) := by
  rw [stage_render_error_case hwl hwr hfail]
  refine ⟨rfl, rfl, ?_⟩
  intro k
  rw [preseed_frames_lookup]
  by_cases h : k ∈ active_idxs s
  · rw [if_pos h, if_pos ((mem_active_idxs hwr k).mp h)]
  · rw [if_neg h, if_neg (fun hc => h ((mem_active_idxs hwr k).mpr hc))]

/-- Witness for C7 at a stage whose layer 1 raises on receive. -/
theorem claim7_render_exception_witness :
    (stage_render render_fail_ex).1.layers = [] :=
  (claim7_render_exception render_fail_ex (by decide) (by decide) (by decide)).1

/-- C9 (amended): the render pass mutates both tables: when no
exception escapes the fan-out, every index that entered the pass with a
non-empty route map is afterwards a key of the layer table (draw
inserts a default layer); and unconditionally, every index that entered
the pass as a layer key afterwards has a (possibly empty) route-table
entry.  When an exception escapes, the layer table is cleared instead
(see the counterexample), so the first part needs the no-exception
premise. -/
theorem claim9_render_mutates (s : stage_state)
    (hwl : SMap.wf s.layers = true) (hwr : SMap.wf s.routes = true) :
    (render_ok s = true → ∀ k m', SMap.lookup k s.routes = some m' → m' ≠ [] →
        (SMap.lookup k (stage_render s).1.layers).isSome = true) ∧
    (∀ k, k ∈ SMap.keys s.layers →
        (SMap.lookup k (stage_render s).1.routes).isSome = true) := by
  have hseed : ∀ k, k ∈ SMap.keys s.layers →
      (SMap.lookup k (seeded_routes s)).isSome = true := by
    intro k hk
    rw [seeded_routes_lookup]
    cases h0 : SMap.lookup k s.routes with
    | some v => rfl
    | none => simp [layer_keys, hk]
  constructor
  · intro hro k m' hm' hne'
    obtain ⟨r, hr, hsr⟩ := stage_render_ok_case hwl hwr hro
    rw [hsr]
    refine draw_all_layers_isSome _ _ _ _ _ hr k (Or.inl ?_)
    rw [mem_active_idxs hwr]
    right
    unfold route_nonempty_at
    rw [hm']
    simpa [List.isEmpty_iff] using hne'
  · intro k hk
    cases hro : render_ok s with
    | true =>
      obtain ⟨r, hr, hsr⟩ := stage_render_ok_case hwl hwr hro
      rw [hsr]
      exact draw_all_routes_isSome _ _ _ _ _ hr k (hseed k hk)
    | false =>
      rw [stage_render_error_case hwl hwr hro]
      exact hseed k hk

/-- Witness for C9: after a clean pass over a stage with a route-only
index 7, index 7 holds a layer. -/
theorem claim9_render_mutates_witness :
    (SMap.lookup 7 (stage_render render_ok_ex).1.layers).isSome = true :=
  (claim9_render_mutates render_ok_ex (by decide) (by decide)).1 (by decide) 7
    [(0, ⟨frame_consumer_mode.foreground, 3⟩)] rfl (by simp)

/-- C9 counterexample: with a failing layer in the same pass, the
safety net clears the layer table, so the route-only index 7 does not
end up as a layer key; the unconditional claim is false. -/
theorem claim9_render_mutates_counterexample :
    ¬ (7 ∈ SMap.keys (stage_render render_fail_ex).1.layers) := by
  decide

/-- C1 counterexample: on a layer whose tween is halfway from the
identity to a unit x-offset, apply_transform with the identity function
installs destination x = 1/2 (the fetched transform), not the previous
destination x = 1 that the claim requires. -/
theorem claim1_counterexample :
    (SMap.lookup 0 (stage_apply_transform 0 (fun t => t) 5 0 swap_ex_a).layers).map
        (fun l => l.tween.dest) ≠ some (⟨1, 0, 1, 1⟩ : frame_transform) := by
  simp only [stage_apply_transform, get_layer, swap_ex_a, SMap.ensure, SMap.lookup,
    SMap.insert, half_tween, tweened_transform.fetch, ease, lerp,
    frame_transform.id_transform]
  norm_num

/-- C6: the per-layer fan-out of draw sends to each route entry exactly
the frame its mode selects: the background frame (drawn after receive)
for Background mode; for NextProducer the background frame when a
background producer is staged and the raw receive frame otherwise; and
the raw (pre-output-transform) receive frame for Foreground mode.  The
output map receives the transformed frame. -/
theorem claim6_route_fanout (s : stage_state) (i : Int)
    (raw tr : draw_frame) (l' : layer)
    (hrec : ((SMap.ensure i layer.default_layer s.layers).1).receive
      = Except.ok (raw, tr, l')) :
    ∃ st' sends, stage_draw i s = Except.ok (st', sends, tr) ∧
      sends = ((SMap.ensure i ([] : SMap route_entry) s.routes).1).map
        (fun kv => (kv.2.consumer, route_frame l' raw kv.2.mode)) ∧
      (∀ tok ent, (tok, ent) ∈ (SMap.ensure i ([] : SMap route_entry) s.routes).1 →
        (ent.consumer, route_frame l' raw ent.mode) ∈ sends) := by
  have helem : ∀ kv, kv ∈ (SMap.ensure i ([] : SMap route_entry) s.routes).1 →
      (fun kv2 : Int × route_entry => (kv2.2.consumer,
        if kv2.2.mode = frame_consumer_mode.background ∨
            (kv2.2.mode = frame_consumer_mode.next_producer ∧
              (if (((SMap.ensure i ([] : SMap route_entry) s.routes).1).any
                    (fun kv3 => kv3.2.mode != frame_consumer_mode.foreground)) = true
                then l'.has_background else false) = true)
        then (if (((SMap.ensure i ([] : SMap route_entry) s.routes).1).any
                (fun kv3 => kv3.2.mode != frame_consumer_mode.foreground)) = true
              then l'.receive_background else draw_frame.empty)
        else raw)) kv
      = (kv.2.consumer, route_frame l' raw kv.2.mode) := by
    intro kv hkv
    have hany_of : kv.2.mode ≠ frame_consumer_mode.foreground →
        (((SMap.ensure i ([] : SMap route_entry) s.routes).1).any
          (fun kv3 => kv3.2.mode != frame_consumer_mode.foreground)) = true := by
      intro hmode
      rw [List.any_eq_true]
      exact ⟨kv, hkv, bne_iff_ne.mpr hmode⟩
    simp only []
    cases hmode : kv.2.mode with
    | foreground =>
      rw [if_neg (by
        rintro (hc | hc)
        · exact frame_consumer_mode.noConfusion hc
        · exact frame_consumer_mode.noConfusion hc.1)]
      rfl
    | background =>
      rw [if_pos (Or.inl rfl),
        if_pos (hany_of (by rw [hmode]; intro hc; exact frame_consumer_mode.noConfusion hc))]
      rfl
    | next_producer =>
      have hany := hany_of (by rw [hmode]; intro hc; exact frame_consumer_mode.noConfusion hc)
      cases hbg : l'.has_background with
      | true =>
        rw [if_pos (Or.inr ⟨rfl, by rw [if_pos hany]⟩), if_pos hany]
        simp [route_frame, hbg]
      | false =>
        rw [if_neg (by
          rintro (hc | hc)
          · exact frame_consumer_mode.noConfusion hc
          · have hc2 := hc.2
            rw [if_pos hany] at hc2
            simp at hc2)]
        simp [route_frame, hbg]
  unfold stage_draw
  simp only [hrec]
  refine ⟨_, _, rfl, ?_, ?_⟩
  · cases hcons : (SMap.ensure i ([] : SMap route_entry) s.routes).1 with
    | nil => simp
    | cons hd rest =>
      rw [← hcons]
      have hne : ((SMap.ensure i ([] : SMap route_entry) s.routes).1).isEmpty = false := by
        rw [hcons]
        rfl
      rw [if_neg (by rw [hne]; simp)]
      exact List.map_congr_left helem
  · intro tok ent hmem
    have hne : ((SMap.ensure i ([] : SMap route_entry) s.routes).1).isEmpty = false := by
      cases hcons : (SMap.ensure i ([] : SMap route_entry) s.routes).1 with
      | nil =>
        rw [hcons] at hmem
        simp at hmem
      | cons hd rest => rfl
    rw [if_neg (by rw [hne]; simp)]
    exact List.mem_map.mpr ⟨(tok, ent), hmem, helem (tok, ent) hmem⟩

/-- Witness for C6 on a stage with one background-mode route at a
route-only index: the default layer receives cleanly and the entry is
served. -/
theorem claim6_route_fanout_witness :
    ∃ st' sends, stage_draw 0 route_ex = Except.ok (st', sends, draw_frame.empty) ∧
      sends = ((SMap.ensure 0 ([] : SMap route_entry) route_ex.routes).1).map
        (fun kv => (kv.2.consumer, route_frame layer.default_layer draw_frame.empty kv.2.mode)) ∧
      (∀ tok ent, (tok, ent) ∈ (SMap.ensure 0 ([] : SMap route_entry) route_ex.routes).1 →
        (ent.consumer, route_frame layer.default_layer draw_frame.empty ent.mode) ∈ sends) :=
  claim6_route_fanout route_ex 0 draw_frame.empty draw_frame.empty layer.default_layer rfl

theorem rev_find_none_iff {α : Type} (p : (Int × α) → Bool) (m : SMap α) :
    (m.reverse.find? p = none) ↔ ∀ kv ∈ m, p kv = false := by
  rw [List.find?_eq_none]
  constructor
  · intro h kv hkv
    have := h kv (List.mem_reverse.mpr hkv)
    cases hx : p kv
    · rfl
    · exact absurd hx this
  · intro h kv hkv
    rw [h kv (List.mem_reverse.mp hkv)]
    simp

theorem rev_find_some {α : Type} {p : (Int × α) → Bool} {m : SMap α} {kv : Int × α}
    (hw : SMap.wf m = true) (h : m.reverse.find? p = some kv) :
    kv ∈ m ∧ p kv = true ∧ ∀ kv' ∈ m, p kv' = true → kv'.1 ≤ kv.1 := by
  induction m with
  | nil => simp at h
  | cons hd rest ih =>
    rw [List.reverse_cons, List.find?_append] at h
    cases hrest : rest.reverse.find? p with
    | some kv2 =>
      rw [hrest] at h
      have h2 : some kv2 = some kv := h
      obtain ⟨hmem, hp, hmax⟩ := ih (SMap.wf_tail hw) (hrest.trans (Option.some.inj h2 ▸ rfl))
      refine ⟨List.mem_cons_of_mem hd hmem, hp, ?_⟩
      intro kv' hkv' hp'
      rcases List.mem_cons.mp hkv' with hkv' | hkv'
      · have hklt : hd.1 < kv.1 := by
          refine SMap.wf_head_lt hw kv.1 ?_
          exact List.mem_map.mpr ⟨kv, hmem, rfl⟩
        rw [hkv']
        exact le_of_lt hklt
      · exact hmax kv' hkv' hp'
    | none =>
      rw [hrest, Option.none_or, List.find?_cons] at h
      cases hphd : p hd with
      | false =>
        rw [hphd] at h
        simp at h
      | true =>
        rw [hphd] at h
        have hkv : hd = kv := Option.some.inj h
        refine ⟨hkv ▸ List.mem_cons_self hd rest, hkv ▸ hphd, ?_⟩
        intro kv' hkv' hp'
        rcases List.mem_cons.mp hkv' with hkv'' | hkv''
        · rw [hkv'', ← hkv]
        · exact absurd hp'
            (by rw [(rev_find_none_iff p rest).mp hrest kv' hkv'']; simp)

/-- C8: every buffered event flushed at the top of a pass is paired
with the hit-test result over the current layer table: the hit test
using each layer's current (non-advancing) fetched transform returns
none (the event is dropped) exactly when no layer's hit test succeeds,
and when it returns a target, the target is a layer whose hit test
succeeds at the event point, its transform is that layer's fetched
transform, and every hitting layer has an index no greater than the
target's — the topmost (highest-index) hitting layer wins. -/
theorem claim8_interaction_zorder (s : stage_state) (events : List (ℚ × ℚ))
    (hw : SMap.wf s.layers = true) :
    (∀ e ∈ events, (e, collission_detect e.1 e.2 s) ∈ aggregator_flush events s) ∧
    (∀ x y, (collission_detect x y s = none ↔
        ∀ kv ∈ s.layers, layer_hit kv.2 x y = false)) ∧
    (∀ x y t i, collission_detect x y s = some (t, i) →
      ∃ l, SMap.lookup i s.layers = some l ∧ layer_hit l x y = true ∧
        t = l.tween.fetch ∧
        ∀ j l', SMap.lookup j s.layers = some l' → layer_hit l' x y = true → j ≤ i) := by
  refine ⟨?_, ?_, ?_⟩
  · intro e he
    unfold aggregator_flush
    exact List.mem_map.mpr ⟨e, he, rfl⟩
  · intro x y
    unfold collission_detect
    rw [Option.map_eq_none']
    exact rev_find_none_iff _ _
  · intro x y t i hsome
    unfold collission_detect at hsome
    rw [Option.map_eq_some'] at hsome
    obtain ⟨kv, hfind, heq⟩ := hsome
    obtain ⟨hmem, hp, hmax⟩ := rev_find_some hw hfind
    have hi : kv.1 = i := congrArg Prod.snd heq
    have ht : kv.2.tween.fetch = t := congrArg Prod.fst heq
    refine ⟨kv.2, ?_, hp, ht.symm, ?_⟩
    · rw [← hi]
      exact SMap.lookup_of_mem_wf hw hmem
    · intro j l' hl' hhit
      rw [← hi]
      exact hmax (j, l') (SMap.mem_of_lookup_eq_some hl') hhit

/-- Witness for C8 on a stage of three always-colliding layers at
indices 1, 3 and 5, with a single buffered event at the centre. -/
theorem claim8_interaction_zorder_witness :
    (((1 : ℚ)/2, (1 : ℚ)/2),
        collission_detect ((1 : ℚ)/2) ((1 : ℚ)/2) hit_ex) ∈
      aggregator_flush [((1 : ℚ)/2, (1 : ℚ)/2)] hit_ex :=
  (claim8_interaction_zorder hit_ex [((1 : ℚ)/2, (1 : ℚ)/2)] (by decide)).1
    ((1 : ℚ)/2, (1 : ℚ)/2) (List.mem_cons_self _ _)

end CasparStage
